import Mathlib

/-!
Verification of the trajectory-conversion tool (`convert_task.py`).

The development shallowly embeds the string-processing core of the tool:
the section extractor (`extract_sections`), the action recognizer
(`build_actions`) together with its coordinate parser (`_parse_coords`),
and the per-task assembly (`process_task`).  Strings are modelled as
`List Char` (with `String` wrappers at the boundary), Python `None` as
`Option.none`, an uncaught Python exception as an overall `Option.none`
result, and the numeric literals that the recognizer's patterns capture
as exact decimals (`Dec`, a numerator with a power-of-ten denominator);
Python's `int(dim * value)` truncation toward zero is computed on
integers by `scaleBy`, with `specTrunc` the rational-valued notion it is
proved to agree with.  Each regular expression of the source is
embedded as a deterministic scanning function that follows the
leftmost-match / greedy / lazy backtracking behaviour of the original
pattern; comments on each definition record the pattern it embeds.
-/

namespace ConvertTask

/-- Python's `\s` (ASCII range) and the whitespace stripped by `str.strip()`. -/
def isWS (c : Char) : Bool :=
  c = ' ' || c = '\t' || c = '\n' || c = '\r' || c = '\x0b' || c = '\x0c'

/-- ASCII digit, the `\d` of the source's patterns. -/
def isDigit (c : Char) : Bool :=
  '0' ≤ c && c ≤ '9'

/-- `l` is a prefix of `r` (the anchored part of a `re.match`). -/
def isPre : List Char → List Char → Bool
  | [], _ => true
  | _ :: _, [] => false
  | a :: as, b :: bs => a == b && isPre as bs

/-- Drop the literal prefix `pre` from `cs`, failing when absent. -/
def stripPre (pre cs : List Char) : Option (List Char) :=
  if isPre pre cs then some (cs.drop pre.length) else none

/-- Python's `str.strip()` on a character list. -/
def pyStrip (cs : List Char) : List Char :=
  ((cs.dropWhile isWS).reverse.dropWhile isWS).reverse

/-- Python's `str.strip()` on a `String`. -/
def pyStripS (s : String) : String :=
  String.mk (pyStrip s.data)

/-- Substring test, Python's `pat in s`. -/
def containsSub (pat : List Char) : List Char → Bool
  | [] => isPre pat []
  | c :: r => isPre pat (c :: r) || containsSub pat r

/-- Value of a list of ASCII digits. -/
def natOfDigits (ds : List Char) : ℕ :=
  ds.foldl (fun n c => 10 * n + (c.toNat - 48)) 0

/-- Exact value of a decimal literal: `(n, k)` denotes `n / 10^k`. -/
abbrev Dec := ℤ × ℕ

/-- The rational a decimal literal denotes. -/
def qVal (v : Dec) : ℚ :=
  (v.1 : ℚ) / (10 : ℚ) ^ v.2

/-- Value of an unsigned numeric token (`\d*\.?\d+`) as an exact decimal. -/
def tokDecPos (t : List Char) : Dec :=
  let ds := t.takeWhile isDigit
  match t.drop ds.length with
  | '.' :: fs =>
      let fr := fs.takeWhile isDigit
      ((natOfDigits ds * 10 ^ fr.length + natOfDigits fr : ℕ), fr.length)
  | _ => ((natOfDigits ds : ℕ), 0)

/-- Value of a signed numeric token captured by `[-+]?\d*\.?\d+`. -/
def tokDec (t : List Char) : Dec :=
  match t with
  | c :: r =>
      if c = '-' then (-(tokDecPos r).1, (tokDecPos r).2)
      else if c = '+' then tokDecPos r
      else tokDecPos t
  | [] => tokDecPos t

/-- Maximal-munch match of `[-+]?\d*\.?\d+` at the head of `cs`, returning
the captured token and the remainder.  Within the source's patterns the
character after a captured number is `\s`, `,` or the end of the pattern,
so backtracking into a shorter token (which always leaves a digit or a
dot as the next character) can never rescue a failed continuation; the
maximal munch is therefore faithful.  `numTokBody` handles the part
after the optional sign (`sg1` is the consumed sign, `body` the rest). -/
def numTokBody (sg1 body : List Char) : Option (List Char × List Char) :=
  let ds := body.takeWhile isDigit
  match body.drop ds.length with
  | d :: r3 =>
      if d = '.' then
        let fs := r3.takeWhile isDigit
        if ¬ fs = [] then some (sg1 ++ ds ++ '.' :: fs, r3.drop fs.length)
        else if ¬ ds = [] then some (sg1 ++ ds, d :: r3) else none
      else if ¬ ds = [] then some (sg1 ++ ds, d :: r3) else none
  | [] => if ¬ ds = [] then some (sg1 ++ ds, []) else none

def numTok (cs : List Char) : Option (List Char × List Char) :=
  match cs with
  | c :: r => if c = '-' ∨ c = '+' then numTokBody [c] r else numTokBody [] (c :: r)
  | [] => numTokBody [] []

/-- Truncation toward zero on the rationals, the behaviour of Python's
`int()` applied to a float; used on the specification side. -/
def specTrunc (q : ℚ) : ℤ :=
  if 0 ≤ q then ⌊q⌋ else -⌊-q⌋

/-- `int(dim * value)` for a decimal literal `v`, computed on integers:
truncation toward zero of `dim * v.1 / 10 ^ v.2`. -/
def scaleBy (dim : ℤ) (v : Dec) : ℤ :=
  if 0 ≤ dim * v.1 then (((dim * v.1).toNat / 10 ^ v.2 : ℕ) : ℤ)
  else -((((-(dim * v.1)).toNat / 10 ^ v.2 : ℕ) : ℤ))

/-- Python's `int(str)` after stripping: optional sign then digits only;
`none` models the `ValueError` raised on anything else. -/
def pyInt (cs : List Char) : Option ℤ :=
  match cs with
  | c :: r =>
      if c = '-' then (if ¬ r = [] ∧ r.all isDigit then some (-(natOfDigits r : ℤ)) else none)
      else if c = '+' then (if ¬ r = [] ∧ r.all isDigit then some ((natOfDigits r : ℕ) : ℤ) else none)
      else (if (c :: r).all isDigit then some ((natOfDigits (c :: r) : ℕ) : ℤ) else none)
  | [] => none

/-- Anchored match of `COORD_PAIR = ([-+]?\d*\.?\d+)\s*,\s*([-+]?\d*\.?\d+)`
at the head of `cs`. -/
def pairAt (cs : List Char) : Option (Dec × Dec) :=
  match numTok cs with
  | none => none
  | some (t1, r1) =>
      match r1.dropWhile isWS with
      | ',' :: r3 =>
          match numTok (r3.dropWhile isWS) with
          | some (t2, _) => some (tokDec t1, tokDec t2)
          | none => none
      | _ => none

/-- `re.search` with `COORD_PAIR`: leftmost match. -/
def pairSearch : List Char → Option (Dec × Dec)
  | [] => none
  | c :: r => pairAt (c :: r) <|> pairSearch r

/-- The part of `NAMED_COORD` after the leading literal `x`:
`\s*=\s*([-+]?\d*\.?\d+)\s*,\s*y\s*=\s*([-+]?\d*\.?\d+)`. -/
def namedAtBody (r : List Char) : Option (Dec × Dec) :=
  match (r.dropWhile isWS) with
  | '=' :: r2 =>
      match numTok (r2.dropWhile isWS) with
      | some (t1, r3) =>
          match r3.dropWhile isWS with
          | ',' :: r4 =>
              match r4.dropWhile isWS with
              | 'y' :: r5 =>
                  match r5.dropWhile isWS with
                  | '=' :: r6 =>
                      match numTok (r6.dropWhile isWS) with
                      | some (t2, _) => some (tokDec t1, tokDec t2)
                      | none => none
                  | _ => none
              | _ => none
          | _ => none
      | none => none
  | _ => none

/-- Anchored match of
`NAMED_COORD = x\s*=\s*([-+]?\d*\.?\d+)\s*,\s*y\s*=\s*([-+]?\d*\.?\d+)`
at the head of `cs`: the leading literal `x`, then the rest. -/
def namedAt (cs : List Char) : Option (Dec × Dec) :=
  match cs with
  | c :: r => if c = 'x' then namedAtBody r else none
  | [] => none

/-- `re.search` with `NAMED_COORD`: leftmost match. -/
def namedSearch : List Char → Option (Dec × Dec)
  | [] => none
  | c :: r => namedAt (c :: r) <|> namedSearch r

/-- The fractional pair found by `_parse_coords`:
`NAMED_COORD.search(arg_str) or COORD_PAIR.search(arg_str)`. -/
def rawCoords (args : List Char) : Option (Dec × Dec) :=
  namedSearch args <|> pairSearch args

/-- `_parse_coords`: the found pair is scaled by the fixed 1920×1080
canvas and truncated (`int(1920*x), int(1080*y)`); no match yields the
Python tuple `(None, None)`. -/
def parse_coords (args : List Char) : Option ℤ × Option ℤ :=
  match rawCoords args with
  | none => (none, none)
  | some (a, b) => (some (scaleBy 1920 a), some (scaleBy 1080 b))

/-- A quote character, `['\"]` in the source's patterns. -/
def isQuote (c : Char) : Bool :=
  c = '"' || c = Char.ofNat 39

/-- Anchored match of `['\"](.+?)['\"]` at the head of `cs`: an opening
quote, then the lazy group takes at least one character and stops at the
first position from which a closing quote (of either kind) follows. -/
def quoteAt (cs : List Char) : Option (List Char) :=
  match cs with
  | q :: rest =>
      if isQuote q then
        match rest with
        | [] => none
        | c :: r2 =>
            let g := c :: r2.takeWhile (fun d => ¬ isQuote d)
            match rest.drop g.length with
            | q2 :: _ => if isQuote q2 then some g else none
            | [] => none
      else none
  | [] => none

/-- `re.search` with `['\"](.+?)['\"]` (the `press` branch): leftmost match. -/
def quoteSearch : List Char → Option (List Char)
  | [] => none
  | c :: r => quoteAt (c :: r) <|> quoteSearch r

/-- `re.search` with `(?:message=)?['\"](.+?)['\"]` (the `write` branch).
The optional `message=` prefix is attempted first at each position and
backtracks to the bare quote alternative, exactly as the Python engine
does. -/
def quoteSearchMsg : List Char → Option (List Char)
  | [] => none
  | c :: r =>
      (match stripPre "message=".data (c :: r) with
       | some r2 => quoteAt r2
       | none => none) <|> quoteAt (c :: r) <|> quoteSearchMsg r

/-- One mouse-action record, the dictionaries built by `build_actions`. -/
inductive MouseAction where
  | click (func : String) (x y : Option ℤ)
  | scroll (x y : Option ℤ) (clicks : ℤ)
  | drag (startX startY endX endY : Option ℤ)
deriving DecidableEq

/-- One keyboard-action record, the dictionaries built by `build_actions`. -/
inductive KeyboardAction where
  | type (text : String)
  | press (key : String)
deriving DecidableEq

/-- The scan state of `build_actions`: the two action slots and the
pending drag start (`start_coords`).  A parsed-but-coordinate-less
`moveTo` still stores the truthy Python tuple `(None, None)`, hence the
nested options. -/
structure BState where
  mouse_action : Option MouseAction
  keyboard_action : Option KeyboardAction
  start_coords : Option (Option ℤ × Option ℤ)
deriving DecidableEq

/-- `re.match(r"pyautogui\.<fn>\(([^)]*)\)", line)`: the literal prefix,
then the greedy `[^)]*` group, then a literal `)`. -/
def callArgs (fn : String) (line : List Char) : Option (List Char) :=
  match stripPre ("pyautogui.".data ++ fn.data ++ ['(']) line with
  | none => none
  | some rest =>
      let args := rest.takeWhile (fun c => ¬ c = ')')
      match rest.drop args.length with
      | ')' :: _ => some args
      | _ => none

/-- Alternation `(click|rightClick|doubleClick)`, tried in the pattern's
order, returning the function name and argument string. -/
def clickFam (line : List Char) : Option (String × List Char) :=
  match callArgs "click" line with
  | some a => some ("click", a)
  | none =>
      match callArgs "rightClick" line with
      | some a => some ("rightClick", a)
      | none =>
          match callArgs "doubleClick" line with
          | some a => some ("doubleClick", a)
          | none => none

/-- Alternation `(write|typewrite)`, tried in the pattern's order. -/
def writeFam (line : List Char) : Option (List Char) :=
  match callArgs "write" line with
  | some a => some a
  | none => callArgs "typewrite" line

/-- Alternation `(moveTo|click)` of the drag-anchor branch.  The `click`
alternative is dead in `build_actions`: any `pyautogui.click(...)` line
is consumed by the click-family branch first. -/
def moveFam (line : List Char) : Option (List Char) :=
  match callArgs "moveTo" line with
  | some a => some a
  | none => callArgs "click" line

/-- One iteration of the scan loop of `build_actions` on a stripped,
nonempty line.  `none` models an uncaught Python exception: the
`AttributeError` of `.group(1)` on a failed quoted-literal search in the
`write`/`press` branches, and the `ValueError` of `int(parts[0])` in the
`scroll` branch. -/
def lineStep (st : BState) (line : List Char) : Option BState :=
  match clickFam line with
  | some (fn, args) =>
      let xy := parse_coords args
      some { st with mouse_action := some (.click fn xy.1 xy.2) }
  | none =>
  match callArgs "scroll" line with
  | some args =>
      match pyInt (pyStrip (args.takeWhile (fun c => ¬ c = ','))) with
      | some clicks =>
          let xy := parse_coords args
          some { st with mouse_action := some (.scroll xy.1 xy.2 clicks) }
      | none => none
  | none =>
  match moveFam line with
  | some args => some { st with start_coords := some (parse_coords args) }
  | none =>
  match callArgs "dragTo" line with
  | some args =>
      match st.start_coords with
      | some p =>
          let xy := parse_coords args
          some { st with mouse_action := some (.drag p.1 p.2 xy.1 xy.2) }
      | none => some st
  | none =>
  match writeFam line with
  | some args =>
      match quoteSearchMsg args with
      | some txt => some { st with keyboard_action := some (.type (String.mk txt)) }
      | none => none
  | none =>
  match callArgs "press" line with
  | some args =>
      match quoteSearch args with
      | some key => some { st with keyboard_action := some (.press (String.mk key)) }
      | none => none
  | none => some st

/-- A line-break character recognized by Python's `str.splitlines()`
(restricted to the common `\n`, `\r\n`, `\r`). -/
def isBreak (c : Char) : Bool :=
  c = '\n' || c = '\r'

/-- Collapse each `\r\n` into a single `\n`. -/
def fuseCRLF : List Char → List Char
  | [] => []
  | [c] => [c]
  | c :: d :: r =>
      if c = '\r' ∧ d = '\n' then '\n' :: fuseCRLF r
      else c :: fuseCRLF (d :: r)

/-- Split at every line-break character; always at least one piece. -/
def splitBreaks : List Char → List (List Char)
  | [] => [[]]
  | c :: r =>
      if isBreak c then [] :: splitBreaks r
      else
        match splitBreaks r with
        | l :: ls => (c :: l) :: ls
        | [] => [[c]]

/-- Python's `str.splitlines()` (restricted to `\n`, `\r\n`, `\r`): split
at breaks, with no trailing empty line for a trailing break and the
empty list for the empty string. -/
def pySplitlines (cs : List Char) : List (List Char) :=
  let ps := splitBreaks (fuseCRLF cs)
  if ps.getLast? = some [] then ps.dropLast else ps

/-- `[ln.strip() for ln in code.splitlines() if ln.strip()]`. -/
def linesOf (code : List Char) : List (List Char) :=
  ((pySplitlines code).map pyStrip).filter (fun l => ¬ l = [])

/-- `build_actions`: strip the code block's lines, drop the blank ones,
and fold the recognizer over them starting from the empty state (no
pending drag start survives from a previous invocation).  The overall
`none` models an uncaught exception escaping `build_actions`. -/
def build_actions (code : List Char) : Option (Option MouseAction × Option KeyboardAction) :=
  ((linesOf code).foldlM lineStep ⟨none, none, none⟩).map
    fun st => (st.mouse_action, st.keyboard_action)

/-- Characters admitted by the capture group `[^#`]+` of the header
patterns. -/
def okHdr (c : Char) : Bool :=
  ¬ (c = '#' || c = '`')

/-- Split a list at its last `'\n'`: `cs = A ++ '\n' :: B` with `B`
newline-free. -/
def lastSplit : List Char → Option (List Char × List Char)
  | [] => none
  | c :: r =>
      match lastSplit r with
      | some (a, b) => some (c :: a, b)
      | none => if c = '\n' then some ([], r) else none

/-- The `\s*\n([^#`]+)` tail of the header patterns, on the maximal
whitespace run `W` followed by the remainder `R`.  Greedy `\s*` with
backtracking matches the literal `\n` at the last newline of `W`; the
group then takes the maximal `[^#`]+` run, and when that group would be
empty the engine backtracks to the previous newline of `W`, where the
group is the (nonempty) whitespace between the two newlines.  `W` is a
whitespace run, so every backtracking level yields the group
`(suffix of W) ++ R.takeWhile okHdr`. -/
def nlBack (W R : List Char) : Option (List Char) :=
  match lastSplit W with
  | none => none
  | some (a, b) =>
      let tw := R.takeWhile okHdr
      if b ≠ [] ∨ tw ≠ [] then some (b ++ tw)
      else
        match lastSplit a with
        | some (_, b2) => some (b2 ++ '\n' :: b ++ tw)
        | none => none

/-- Anchored match of `##\s*<label>\s*\n([^#`]+)` at the head of `cs`
(`label` is `Thought:` or `Action:`).  The `\s*` before the label is
deterministic because the label starts with a non-whitespace character. -/
def headerMatch (label : String) (cs : List Char) : Option (List Char) :=
  match cs with
  | a :: b :: r =>
      if a = '#' ∧ b = '#' then
        match stripPre label.data (r.dropWhile isWS) with
        | some r2 => nlBack (r2.takeWhile isWS) (r2.dropWhile isWS)
        | none => none
      else none
  | _ => none

/-- `re.search` with a header pattern: leftmost match. -/
def headerSearch (label : String) : List Char → Option (List Char)
  | [] => none
  | c :: r => headerMatch label (c :: r) <|> headerSearch label r

/-- The `\s*([^`]+?)` ``` part of `CODE_RE` after the opening fence and
optional tag: greedy `\s*`, then the lazy nonempty group up to a closing
triple backtick.  The lazy group reaches at most the first backtick, so
the match succeeds exactly when a closing ``` follows the maximal
backtick-free run; an empty run is rescued by backtracking one
whitespace character out of `\s*`. -/
def tryBody (s : List Char) : Option (List Char) :=
  let w := s.takeWhile isWS
  let s2 := s.dropWhile isWS
  let g := s2.takeWhile (fun c => ¬ c = '`')
  if isPre "```".data (s2.drop g.length) then
    if g ≠ [] then some g
    else
      match w.reverse with
      | lw :: _ => some [lw]
      | [] => none
  else none

/-- The `(?:python|code)?` alternation of `CODE_RE` after an opening
fence, with full backtracking into the untagged alternative. -/
def fenceAfter (r : List Char) : Option (List Char) :=
  (match stripPre "python".data r with
   | some r2 => tryBody r2
   | none => none) <|>
  (match stripPre "code".data r with
   | some r2 => tryBody r2
   | none => none) <|>
  tryBody r

/-- Anchored match of ``CODE_RE = ```(?:python|code)?\s*([^`]+?)``` `` at
the head of `cs`. -/
def fenceMatch (cs : List Char) : Option (List Char) :=
  match cs with
  | a :: b :: c :: r =>
      if a = '`' ∧ b = '`' ∧ c = '`' then fenceAfter r else none
  | _ => none

/-- `re.search` with `CODE_RE`: leftmost match. -/
def codeSearch : List Char → Option (List Char)
  | [] => none
  | c :: r => fenceMatch (c :: r) <|> codeSearch r

/-- `group(1).strip() if m else ""`. -/
def stripGroup : Option (List Char) → List Char
  | none => []
  | some g => pyStrip g

/-- `extract_sections`: the stripped captures of the three module
patterns, empty on a failed search. -/
def extract_sections (resp : List Char) : List Char × List Char × List Char :=
  (stripGroup (headerSearch "Thought:" resp),
   stripGroup (headerSearch "Action:" resp),
   stripGroup (codeSearch resp))

/-- A one-call line `pyautogui.<fn>(<args>)`, used to state line-level
properties of the recognizer. -/
def mkCall (fn : String) (args : List Char) : List Char :=
  "pyautogui.".data ++ fn.data ++ '(' :: (args ++ [')'])

/-- Whether a mouse-action slot holds a drag record. -/
def isDragB : Option MouseAction → Bool
  | some (.drag _ _ _ _) => true
  | _ => false

/-- A line matches some call shape of the recognizer (hence is not
ignored by the scan). -/
abbrev recognized (line : List Char) : Prop :=
  ¬ clickFam line = none ∨ ¬ callArgs "scroll" line = none ∨
  ¬ moveFam line = none ∨ ¬ callArgs "dragTo" line = none ∨
  ¬ writeFam line = none ∨ ¬ callArgs "press" line = none

/-- A line that reaches the drag-anchor branch and matches it: the two
earlier branches fail and `(moveTo|click)` matches.  Only such a line
sets the pending drag start. -/
abbrev isAnchor (line : List Char) : Prop :=
  clickFam line = none ∧ callArgs "scroll" line = none ∧ ¬ moveFam line = none

/-- One record of `traj.jsonl`: `step_num`, `response`, `screenshot_file`. -/
structure Row where
  step_num : ℤ
  response : String
  screenshot_file : String
deriving DecidableEq

/-- The two keys of `config.json` that `process_task` reads; a missing
key is `none`.  (Only string values are modelled.) -/
structure Config where
  instruction : Option String
  prompt : Option String
deriving DecidableEq

/-- One output step record; `mouseAction`/`keyboardAction` are absent
(`none`) exactly when `build_actions` produced no record. -/
structure Step where
  stepNum : ℤ
  thought : String
  action : String
  code : String
  response : String
  image : String
  mouseAction : Option MouseAction
  keyboardAction : Option KeyboardAction
deriving DecidableEq

/-- One output task record. -/
structure Task where
  id : String
  steps : List Step
  instruction : String
deriving DecidableEq

/-- The termination sentinel looked up in the code block. -/
def sentinel : List Char := "computer.terminate".data

/-- `cfg.get("instruction") or cfg.get("prompt", "").strip()` for a
present configuration file, `""` for a missing one.  Python's `or`
falls through on a missing (`None`) or empty `instruction`. -/
def getInstruction : Option Config → String
  | none => ""
  | some c =>
      match c.instruction with
      | some s => if s = "" then pyStripS (c.prompt.getD "") else s
      | none => pyStripS (c.prompt.getD "")

/-- The loop body of `process_task` for one `traj.jsonl` row; `none`
models an exception escaping `build_actions`. -/
def processStep (taskId : String) (row : Row) : Option Step :=
  let secs := extract_sections row.response.data
  let code := secs.2.2
  match build_actions code with
  | none => none
  | some acts =>
      let actionDesc :=
        if containsSub sentinel code then "DONE".data else secs.2.1
      some
        { stepNum := row.step_num
          thought := String.mk secs.1
          action := String.mk actionDesc
          code := String.mk code
          response := pyStripS row.response
          image := "./static/trajs/" ++ taskId ++ "/" ++ row.screenshot_file
          mouseAction := acts.1
          keyboardAction := acts.2 }

/-- `process_task` for one task directory, given the parsed
configuration (`none` = missing `config.json`) and the rows of
`traj.jsonl`; `none` models an exception escaping some step. -/
def process_task (taskId : String) (cfg : Option Config) (rows : List Row) :
    Option Task :=
  (rows.mapM (processStep taskId)).map
    fun steps => { id := taskId, steps := steps, instruction := getInstruction cfg }

/-- A response in the canonical documented layout: a `Thought` header, an
`Action` header and one `python`-tagged fenced code block. -/
def mkResponse (t a c : List Char) : List Char :=
  "## Thought:\n".data ++ (t ++ ("\n## Action:\n".data ++ (a ++ ("\n```python\n".data ++ (c ++ "\n```".data)))))

/-- The line `pyautogui.write("don't")` (the apostrophe written as
`Char.ofNat 39`): a double-quoted literal whose content contains a
single-quote character. -/
def c4line : List Char :=
  "pyautogui.write(".data ++ '"' :: 'd' :: 'o' :: 'n' :: Char.ofNat 39 :: 't' :: '"' :: [')']

/-! ### Basic list lemmas -/

lemma twAll {p : Char → Bool} : ∀ {l : List Char}, (∀ c ∈ l, p c = true) → l.takeWhile p = l
  | [], _ => rfl
  | c :: r, h => by
      simp only [List.takeWhile, h c (by simp)]
      exact congrArg (c :: ·) (twAll fun d hd => h d (by simp [hd]))

lemma twApp {p : Char → Bool} : ∀ (l r : List Char), (∀ c ∈ l, p c = true) →
    (l ++ r).takeWhile p = l ++ r.takeWhile p
  | [], _, _ => rfl
  | c :: l', r, h => by
      simp only [List.cons_append, List.takeWhile, h c (by simp)]
      exact congrArg (c :: ·) (twApp l' r fun d hd => h d (by simp [hd]))

lemma dwApp {p : Char → Bool} : ∀ (l r : List Char), (∀ c ∈ l, p c = true) →
    (l ++ r).dropWhile p = r.dropWhile p
  | [], _, _ => rfl
  | c :: l', r, h => by
      simp only [List.cons_append, List.dropWhile, h c (by simp)]
      exact dwApp l' r fun d hd => h d (by simp [hd])

lemma twNone {p : Char → Bool} : ∀ {l : List Char}, (∀ c ∈ l, p c = false) → l.takeWhile p = []
  | [], _ => rfl
  | c :: _, h => by simp only [List.takeWhile, h c (by simp)]

lemma dwNone {p : Char → Bool} : ∀ {l : List Char}, (∀ c ∈ l, p c = false) → l.dropWhile p = l
  | [], _ => rfl
  | c :: _, h => by simp only [List.dropWhile, h c (by simp)]

lemma isPre_rfl : ∀ (pre rest : List Char), isPre pre (pre ++ rest) = true
  | [], _ => rfl
  | c :: pre', rest => by simp [isPre, isPre_rfl pre' rest]

lemma stripPre_rfl (pre rest : List Char) : stripPre pre (pre ++ rest) = some rest := by
  simp [stripPre, isPre_rfl, List.drop_left]

lemma isPre_some : ∀ {pre cs : List Char}, isPre pre cs = true → cs = pre ++ cs.drop pre.length
  | [], _, _ => rfl
  | c :: pre', d :: cs', h => by
      simp only [isPre, Bool.and_eq_true, beq_iff_eq] at h
      simpa [h.1] using congrArg (d :: ·) (isPre_some h.2)

lemma stripPre_some {pre cs r : List Char} (h : stripPre pre cs = some r) : cs = pre ++ r := by
  unfold stripPre at h
  by_cases hp : isPre pre cs = true
  · rw [if_pos hp] at h
    obtain rfl := Option.some.inj h
    exact isPre_some hp
  · rw [if_neg hp] at h; cases h

/-! ### The scaling bridge: `scaleBy` is truncation toward zero -/

lemma intCast_div_natCast_nonneg_floor (m : ℕ) (d : ℕ) :
    ⌊((m : ℚ)) / ((d : ℚ))⌋ = ((m / d : ℕ) : ℤ) := by
  have h := Rat.floor_intCast_div_natCast (m : ℤ) d
  push_cast at h ⊢
  rw [h]

/-- `scaleBy dim v` is exactly the truncation toward zero of
`dim * (value of v)`. -/
lemma scaleBy_eq_specTrunc (dim : ℤ) (v : Dec) :
    scaleBy dim v = specTrunc ((dim : ℚ) * qVal v) := by
  have hq : (dim : ℚ) * qVal v = ((dim * v.1 : ℤ) : ℚ) / (((10 ^ v.2 : ℕ) : ℚ)) := by
    unfold qVal; push_cast; ring
  have hpow : (0 : ℚ) < ((10 ^ v.2 : ℕ) : ℚ) := by positivity
  rcases le_or_lt 0 (dim * v.1) with hpos | hneg
  · have hq0 : 0 ≤ (dim : ℚ) * qVal v := by
      rw [hq]
      exact div_nonneg (by exact_mod_cast hpos) hpow.le
    rw [scaleBy, if_pos hpos, specTrunc, if_pos hq0, hq]
    have : ((dim * v.1 : ℤ) : ℚ) = (((dim * v.1).toNat : ℕ) : ℚ) := by
      exact_mod_cast (Int.toNat_of_nonneg hpos).symm
    rw [this, intCast_div_natCast_nonneg_floor]
  · have hq0 : ¬ 0 ≤ (dim : ℚ) * qVal v := by
      rw [hq, not_le]
      apply div_neg_of_neg_of_pos _ hpow
      exact_mod_cast hneg
    rw [scaleBy, if_neg (not_le.mpr hneg), specTrunc, if_neg hq0]
    have hneg' : (0 : ℤ) ≤ -(dim * v.1) := by omega
    have h3 : (((-(dim * v.1)).toNat : ℕ) : ℤ) = -(dim * v.1) := Int.toNat_of_nonneg hneg'
    have h4 : (((-(dim * v.1)).toNat : ℕ) : ℚ) = -(((dim * v.1 : ℤ)) : ℚ) := by exact_mod_cast h3
    have h2 : -((dim : ℚ) * qVal v) = (((-(dim * v.1)).toNat : ℕ) : ℚ) / (((10 ^ v.2 : ℕ) : ℚ)) := by
      rw [hq, h4]
      ring
    rw [h2, intCast_div_natCast_nonneg_floor]

/-! ### Recognizer line lemmas -/

lemma callArgs_mkCall (fn : String) (args : List Char) (h : ∀ c ∈ args, ¬ c = ')') :
    callArgs fn (mkCall fn args) = some args := by
  unfold callArgs mkCall
  have hassoc : "pyautogui.".data ++ fn.data ++ '(' :: (args ++ [')'])
      = ("pyautogui.".data ++ fn.data ++ ['(']) ++ (args ++ [')']) := by simp
  rw [hassoc, stripPre_rfl]
  have h1 : (args ++ [')']).takeWhile (fun c => ¬ c = ')') = args := by
    rw [twApp args [')'] (fun c hc => by simpa using h c hc)]
    simp [List.takeWhile]
  simp only [h1, List.drop_left]

lemma clickFam_mkCall (args : List Char) (h : ∀ c ∈ args, ¬ c = ')') :
    clickFam (mkCall "click" args) = some ("click", args) := by
  unfold clickFam
  rw [callArgs_mkCall "click" args h]

lemma moveFam_mkCall (args : List Char) (h : ∀ c ∈ args, ¬ c = ')') :
    moveFam (mkCall "moveTo" args) = some args := by
  unfold moveFam
  rw [callArgs_mkCall "moveTo" args h]

lemma writeFam_mkCall (args : List Char) (h : ∀ c ∈ args, ¬ c = ')') :
    writeFam (mkCall "write" args) = some args := by
  unfold writeFam
  rw [callArgs_mkCall "write" args h]

/-- The step of the scan on a `pyautogui.click(...)` line: it sets the
mouse action to a click record and touches nothing else (in particular
it does not set the pending drag start). -/
lemma lineStep_click (st : BState) (args : List Char) (h : ∀ c ∈ args, ¬ c = ')') :
    lineStep st (mkCall "click" args) =
      some { st with mouse_action := some (.click "click" (parse_coords args).1 (parse_coords args).2) } := by
  unfold lineStep
  rw [clickFam_mkCall args h]

/-- The step of the scan on a `pyautogui.moveTo(...)` line: it only
records the pending drag start. -/
lemma lineStep_moveTo (st : BState) (args : List Char) (h : ∀ c ∈ args, ¬ c = ')') :
    lineStep st (mkCall "moveTo" args) =
      some { st with start_coords := some (parse_coords args) } := by
  unfold lineStep
  have h1 : clickFam (mkCall "moveTo" args) = none := rfl
  have h2 : callArgs "scroll" (mkCall "moveTo" args) = none := rfl
  rw [h1, h2, moveFam_mkCall args h]

/-- The step of the scan on a `pyautogui.dragTo(...)` line with a pending
drag start `p`: it emits the drag combining `p` with the parsed target
and leaves the pending start in place (not consumed). -/
lemma lineStep_dragTo_pending (st : BState) (args : List Char) (p : Option ℤ × Option ℤ)
    (hst : st.start_coords = some p) (h : ∀ c ∈ args, ¬ c = ')') :
    lineStep st (mkCall "dragTo" args) =
      some { st with mouse_action := some (.drag p.1 p.2 (parse_coords args).1 (parse_coords args).2) } := by
  unfold lineStep
  have h1 : clickFam (mkCall "dragTo" args) = none := rfl
  have h2 : callArgs "scroll" (mkCall "dragTo" args) = none := rfl
  have h3 : moveFam (mkCall "dragTo" args) = none := rfl
  rw [h1, h2, h3, callArgs_mkCall "dragTo" args h, hst]

/-- The step of the scan on a `pyautogui.dragTo(...)` line with no
pending drag start: the line is a no-op. -/
lemma lineStep_dragTo_none (st : BState) (args : List Char)
    (hst : st.start_coords = none) (h : ∀ c ∈ args, ¬ c = ')') :
    lineStep st (mkCall "dragTo" args) = some st := by
  unfold lineStep
  have h1 : clickFam (mkCall "dragTo" args) = none := rfl
  have h2 : callArgs "scroll" (mkCall "dragTo" args) = none := rfl
  have h3 : moveFam (mkCall "dragTo" args) = none := rfl
  rw [h1, h2, h3, callArgs_mkCall "dragTo" args h, hst]

/-- `quoteAt` fails when the head is missing or not a quote. -/
lemma quoteAt_no_quote : ∀ {cs : List Char}, (∀ c ∈ cs, isQuote c = false) → quoteAt cs = none
  | [], _ => rfl
  | c :: r, h => by simp [quoteAt, h c (by simp)]

/-- The `press` branch's quoted-literal search fails on a quote-free
argument string. -/
lemma quoteSearch_no_quote : ∀ {cs : List Char}, (∀ c ∈ cs, isQuote c = false) →
    quoteSearch cs = none
  | [], _ => rfl
  | c :: r, h => by
      have h1 : quoteAt (c :: r) = none := quoteAt_no_quote h
      have h2 : quoteSearch r = none := quoteSearch_no_quote fun d hd => h d (by simp [hd])
      simp [quoteSearch, h1, h2]

/-- The `write` branch's quoted-literal search fails on a quote-free
argument string. -/
lemma quoteSearchMsg_no_quote : ∀ {cs : List Char}, (∀ c ∈ cs, isQuote c = false) →
    quoteSearchMsg cs = none
  | [], _ => rfl
  | c :: r, h => by
      have h1 : quoteAt (c :: r) = none := quoteAt_no_quote h
      have h2 : quoteSearchMsg r = none := quoteSearchMsg_no_quote fun d hd => h d (by simp [hd])
      have h3 : (match stripPre "message=".data (c :: r) with
          | some r2 => quoteAt r2
          | none => none) = none := by
        cases hsp : stripPre "message=".data (c :: r) with
        | none => rfl
        | some r2 =>
            have := stripPre_some hsp
            exact quoteAt_no_quote fun d hd => h d (by rw [this]; simp [hd])
      simp [quoteSearchMsg, h1, h2, h3]

/-- The quoted-literal search of the `write` branch on an argument
string that is one double-quoted literal with quote-free content. -/
lemma quoteSearchMsg_quoted (s : List Char) (hne : ¬ s = [])
    (hq : ∀ c ∈ s, isQuote c = false) :
    quoteSearchMsg ('"' :: (s ++ ['"'])) = some s := by
  obtain ⟨d, s', rfl⟩ := List.exists_cons_of_ne_nil hne
  have hA : (match stripPre "message=".data ('"' :: (d :: s' ++ ['"'])) with
      | some r2 => quoteAt r2
      | none => none) = none := rfl
  have hg : (s' ++ ['"']).takeWhile (fun e => ¬ isQuote e) = s' := by
    rw [twApp s' ['"'] (fun c hc => by simp [hq c (by simp [hc])])]
    have h2 : (['"'] : List Char).takeWhile (fun e => ¬ isQuote e) = [] := by decide
    rw [h2, List.append_nil]
  have hB : quoteAt ('"' :: (d :: s' ++ ['"'])) = some (d :: s') := by
    simp only [quoteAt, List.cons_append]
    rw [if_pos (by decide)]
    simp only [hg]
    have hdrop : (d :: (s' ++ ['"'])).drop (d :: s').length = ['"'] := by
      simp only [List.length_cons, List.drop_succ_cons]
      exact List.drop_left s' ['"']
    rw [hdrop]
    rfl
  simp only [quoteSearchMsg, List.cons_append] at hA hB ⊢
  rw [hA, hB]
  rfl

/-! ### The scan never emits a drag without a `moveTo` anchor -/

/-- A scan step on a line that is not a `moveTo`/`click` anchor keeps the
pending drag start empty and can only produce a drag record if one was
already present. -/
lemma lineStep_no_move {st st' : BState} {line : List Char}
    (h : lineStep st line = some st') (hm : ¬ isAnchor line)
    (hs : st.start_coords = none) :
    st'.start_coords = none ∧ (isDragB st'.mouse_action = true → isDragB st.mouse_action = true) := by
  unfold lineStep at h
  cases h1 : clickFam line with
  | some v =>
      obtain ⟨fn, args⟩ := v
      simp only [h1] at h
      cases Option.some.inj h
      exact ⟨hs, by simp [isDragB]⟩
  | none =>
  simp only [h1] at h
  cases h2 : callArgs "scroll" line with
  | some args =>
      simp only [h2] at h
      cases h3 : pyInt (pyStrip (args.takeWhile (fun c => ¬ c = ','))) with
      | none => rw [h3] at h; cases h
      | some k =>
          rw [h3] at h
          cases Option.some.inj h
          exact ⟨hs, by simp [isDragB]⟩
  | none =>
  have hmove : moveFam line = none := by
    by_contra hx
    exact hm ⟨h1, h2, hx⟩
  simp only [h2, hmove] at h
  cases h4 : callArgs "dragTo" line with
  | some args =>
      simp only [h4, hs] at h
      cases Option.some.inj h
      exact ⟨hs, fun x => x⟩
  | none =>
  simp only [h4] at h
  cases h5 : writeFam line with
  | some args =>
      simp only [h5] at h
      cases h6 : quoteSearchMsg args with
      | none => rw [h6] at h; cases h
      | some txt =>
          rw [h6] at h
          cases Option.some.inj h
          exact ⟨hs, fun x => x⟩
  | none =>
  simp only [h5] at h
  cases h7 : callArgs "press" line with
  | some args =>
      simp only [h7] at h
      cases h8 : quoteSearch args with
      | none => rw [h8] at h; cases h
      | some key =>
          rw [h8] at h
          cases Option.some.inj h
          exact ⟨hs, fun x => x⟩
  | none =>
  simp only [h7] at h
  cases Option.some.inj h
  exact ⟨hs, fun x => x⟩

/-- Scanning any number of non-anchor lines from a dragless state stays
dragless. -/
lemma foldlM_no_move : ∀ (lines : List (List Char)) (st : BState),
    (∀ l ∈ lines, ¬ isAnchor l) → st.start_coords = none →
    isDragB st.mouse_action = false →
    ∀ st'', lines.foldlM lineStep st = some st'' →
      st''.start_coords = none ∧ isDragB st''.mouse_action = false
  | [], st, _, hs, hd, st'', h => by
      simp only [List.foldlM_nil] at h
      cases Option.some.inj h
      exact ⟨hs, hd⟩
  | l :: ls, st, hm, hs, hd, st'', h => by
      rw [List.foldlM_cons] at h
      cases hst : lineStep st l with
      | none => rw [hst] at h; cases h
      | some s1 =>
          rw [hst] at h
          obtain ⟨hs1, himp⟩ := lineStep_no_move hst (hm l (by simp)) hs
          have hd1 : isDragB s1.mouse_action = false := by
            cases hsd : isDragB s1.mouse_action with
            | false => rfl
            | true => exact absurd (himp hsd) (by simp [hd])
          exact foldlM_no_move ls s1 (fun d hdm => hm d (by simp [hdm])) hs1 hd1 st'' h

/-! ### Lemmas for the section extractor -/

lemma dropWhile_head_false {p : Char → Bool} :
    ∀ {l : List Char} {x : Char} {xs : List Char}, l.dropWhile p = x :: xs → p x = false
  | [], x, xs, h => by cases h
  | c :: r, x, xs, h => by
      by_cases hc : p c = true
      · rw [List.dropWhile_cons_of_pos hc] at h
        exact dropWhile_head_false h
      · rw [List.dropWhile_cons_of_neg hc] at h
        cases List.cons.inj h
        simp_all

lemma okHdr_parts {c : Char} (h : okHdr c = true) : ¬ c = '#' ∧ ¬ c = '`' :=
  ⟨fun hx => by subst hx; exact absurd h (by decide),
   fun hx => by subst hx; exact absurd h (by decide)⟩

lemma okHdr_false_not_ws {c : Char} (h : okHdr c = false) : isWS c = false := by
  unfold okHdr at h
  have : c = '#' ∨ c = '`' := by
    by_contra hx
    push_neg at hx
    simp [hx.1, hx.2] at h
  rcases this with rfl | rfl <;> decide

lemma lastSplit_eq : ∀ {cs a : List Char} {b : List Char},
    lastSplit cs = some (a, b) → cs = a ++ '\n' :: b
  | [], a, b, h => by cases h
  | c :: r, a, b, h => by
      unfold lastSplit at h
      cases hr : lastSplit r with
      | some p =>
          obtain ⟨a', b'⟩ := p
          simp only [hr, Option.some.injEq, Prod.mk.injEq] at h
          obtain ⟨h1, h2⟩ := h
          subst h1
          subst h2
          have := lastSplit_eq hr
          rw [this]
          simp
      | none =>
          simp only [hr] at h
          by_cases hc : c = '\n'
          · rw [if_pos hc] at h
            simp only [Option.some.injEq, Prod.mk.injEq] at h
            obtain ⟨h1, h2⟩ := h
            subst h1
            subst h2
            simp [hc]
          · rw [if_neg hc] at h
            cases h

lemma lastSplit_append_nl : ∀ (xs : List Char), lastSplit (xs ++ ['\n']) = some (xs, [])
  | [] => rfl
  | c :: xs => by
      simp only [List.cons_append]
      unfold lastSplit
      rw [lastSplit_append_nl xs]

lemma lastSplit_cons_nl (t : List Char) : ∃ a b, lastSplit ('\n' :: t) = some (a, b) := by
  cases h : lastSplit t with
  | some p =>
      obtain ⟨a, b⟩ := p
      exact ⟨'\n' :: a, b, by unfold lastSplit; simp only [h]⟩
  | none => exact ⟨[], t, by unfold lastSplit; simp only [h]; rfl⟩

lemma pyStrip_allWS {l : List Char} (h : ∀ c ∈ l, isWS c = true) : pyStrip l = [] := by
  unfold pyStrip
  have h1 : l.dropWhile isWS = [] := by
    have := dwApp l [] h
    simpa using this
  rw [h1]
  rfl

lemma pyStrip_ws_front {w l : List Char} (hw : ∀ c ∈ w, isWS c = true) :
    pyStrip (w ++ l) = pyStrip l := by
  unfold pyStrip
  rw [dwApp w l hw]

lemma pyStrip_cons_ws_front {c : Char} {l : List Char} (hc : isWS c = true) :
    pyStrip (c :: l) = pyStrip l := by
  have := pyStrip_ws_front (w := [c]) (l := l) (by simpa using hc)
  simpa using this

lemma pyStrip_ws_suffix {l w : List Char} (hw : ∀ c ∈ w, isWS c = true) :
    pyStrip (l ++ w) = pyStrip l := by
  cases hdl : l.dropWhile isWS with
  | nil =>
      have hlw : ∀ c ∈ l, isWS c = true := by
        intro c hc
        have hsplit := List.takeWhile_append_dropWhile isWS l
        rw [hdl, List.append_nil] at hsplit
        rw [← hsplit] at hc
        exact List.mem_takeWhile_imp hc
      rw [pyStrip_allWS (by intro c hc; rcases List.mem_append.mp hc with h | h; exacts [hlw c h, hw c h]),
        pyStrip_allWS hlw]
  | cons x xs =>
      have hx : isWS x = false := dropWhile_head_false hdl
      have hsplit := List.takeWhile_append_dropWhile isWS l
      rw [hdl] at hsplit
      have htk : ∀ c ∈ l.takeWhile isWS, isWS c = true := fun c hc => List.mem_takeWhile_imp hc
      calc pyStrip (l ++ w)
          = pyStrip ((l.takeWhile isWS ++ x :: xs) ++ w) := by rw [hsplit]
        _ = pyStrip (l.takeWhile isWS ++ ((x :: xs) ++ w)) := by rw [List.append_assoc]
        _ = pyStrip ((x :: xs) ++ w) := pyStrip_ws_front htk
        _ = pyStrip (x :: xs) := by
              unfold pyStrip
              simp only [List.cons_append]
              rw [List.dropWhile_cons_of_neg (by simp [hx]), List.dropWhile_cons_of_neg (by simp [hx])]
              simp only [List.reverse_cons]
              rw [show (xs ++ w).reverse ++ [x] = w.reverse ++ (xs.reverse ++ [x]) by simp]
              rw [dwApp w.reverse (xs.reverse ++ [x]) (fun c hc => hw c (by simpa using hc))]
        _ = pyStrip l := by rw [← hsplit]; exact (pyStrip_ws_front htk).symm

/-- The `\s*\n([^#`]+)` tail of a header pattern on the canonical layout
`<label>\n<t>\n<stop><rest>` succeeds and captures, up to stripping,
exactly `t`. -/
lemma nlBack_canonical (t rest : List Char) (s₀ : Char) (ht : ∀ c ∈ t, okHdr c = true)
    (hs : okHdr s₀ = false) :
    ∃ g, nlBack (('\n' :: (t ++ '\n' :: s₀ :: rest)).takeWhile isWS)
        (('\n' :: (t ++ '\n' :: s₀ :: rest)).dropWhile isWS) = some g ∧
      pyStrip g = pyStrip t := by
  have hsws : isWS s₀ = false := okHdr_false_not_ws hs
  cases hmc : t.dropWhile isWS with
  | nil =>
      have htall : ∀ c ∈ t, isWS c = true := by
        intro c hc
        have hsplit := List.takeWhile_append_dropWhile isWS t
        rw [hmc, List.append_nil] at hsplit
        rw [← hsplit] at hc
        exact List.mem_takeWhile_imp hc
      have hW : ('\n' :: (t ++ '\n' :: s₀ :: rest)).takeWhile isWS = '\n' :: (t ++ ['\n']) := by
        rw [List.takeWhile_cons_of_pos (by decide), twApp t ('\n' :: s₀ :: rest) htall,
          List.takeWhile_cons_of_pos (by decide), List.takeWhile_cons_of_neg (by simp [hsws])]
      have hR : ('\n' :: (t ++ '\n' :: s₀ :: rest)).dropWhile isWS = s₀ :: rest := by
        rw [List.dropWhile_cons_of_pos (by decide), dwApp t ('\n' :: s₀ :: rest) htall,
          List.dropWhile_cons_of_pos (by decide), List.dropWhile_cons_of_neg (by simp [hsws])]
      rw [hW, hR]
      unfold nlBack
      have hls : lastSplit ('\n' :: (t ++ ['\n'])) = some ('\n' :: t, []) := by
        have h2 := lastSplit_append_nl ('\n' :: t)
        simpa using h2
      simp only [hls]
      have htw0 : (s₀ :: rest).takeWhile okHdr = [] :=
        List.takeWhile_cons_of_neg (by simp [hs])
      simp only [htw0]
      rw [if_neg (by simp)]
      obtain ⟨a2, b2, hab⟩ := lastSplit_cons_nl t
      simp only [hab]
      refine ⟨_, rfl, ?_⟩
      have hb2 : ∀ c ∈ b2, isWS c = true := by
        intro c hc
        have heq := lastSplit_eq hab
        have hmem : c ∈ '\n' :: t := by rw [heq]; simp [hc]
        rcases List.mem_cons.mp hmem with rfl | h2
        · decide
        · exact htall c h2
      simp only [List.append_nil, List.nil_append]
      have hww : ∀ d ∈ b2 ++ ['\n'], isWS d = true := by
        intro d hd
        rcases List.mem_append.mp hd with hd | hd
        · exact hb2 d hd
        · simp only [List.mem_singleton] at hd
          rw [hd]; decide
      rw [pyStrip_allWS hww, pyStrip_allWS htall]
  | cons x m' =>
      have hx : isWS x = false := dropWhile_head_false hmc
      have hsplit := List.takeWhile_append_dropWhile isWS t
      rw [hmc] at hsplit
      have hxmem : x ∈ t := by rw [← hsplit]; simp
      have hm'mem : ∀ c ∈ m', c ∈ t := by intro c hcm; rw [← hsplit]; simp [hcm]
      have htk : ∀ c ∈ t.takeWhile isWS, isWS c = true := fun c hcw => List.mem_takeWhile_imp hcw
      have hW : ('\n' :: (t ++ '\n' :: s₀ :: rest)).takeWhile isWS
          = '\n' :: t.takeWhile isWS := by
        rw [List.takeWhile_cons_of_pos (by decide)]
        congr 1
        conv_lhs => rw [← hsplit]
        rw [List.append_assoc, twApp _ _ htk]
        simp only [List.cons_append]
        rw [List.takeWhile_cons_of_neg (by simp [hx])]
        simp
      have hR : ('\n' :: (t ++ '\n' :: s₀ :: rest)).dropWhile isWS
          = x :: (m' ++ '\n' :: s₀ :: rest) := by
        rw [List.dropWhile_cons_of_pos (by decide)]
        conv_lhs => rw [← hsplit]
        rw [List.append_assoc, dwApp _ _ htk]
        simp only [List.cons_append]
        rw [List.dropWhile_cons_of_neg (by simp [hx])]
      rw [hW, hR]
      unfold nlBack
      obtain ⟨a2, b2, hab⟩ := lastSplit_cons_nl (t.takeWhile isWS)
      simp only [hab]
      have hxok : okHdr x = true := ht x hxmem
      have htw : (x :: (m' ++ '\n' :: s₀ :: rest)).takeWhile okHdr = x :: (m' ++ ['\n']) := by
        rw [List.takeWhile_cons_of_pos (by simp [hxok])]
        congr 1
        rw [twApp m' _ (fun c hcm => ht c (hm'mem c hcm)),
          List.takeWhile_cons_of_pos (by decide), List.takeWhile_cons_of_neg (by simp [hs])]
      simp only [htw]
      rw [if_pos (Or.inr (by simp))]
      refine ⟨_, rfl, ?_⟩
      have hb2 : ∀ c ∈ b2, isWS c = true := by
        intro c hcb
        have heq := lastSplit_eq hab
        have hmem : c ∈ '\n' :: t.takeWhile isWS := by rw [heq]; simp [hcb]
        rcases List.mem_cons.mp hmem with rfl | h2
        · decide
        · exact htk c h2
      rw [show b2 ++ x :: (m' ++ ['\n']) = b2 ++ ((x :: m') ++ ['\n']) by simp]
      rw [pyStrip_ws_front hb2,
        pyStrip_ws_suffix (by intro d hd; simp at hd; rw [hd]; decide)]
      conv_rhs => rw [← hsplit]
      exact (pyStrip_ws_front htk).symm

/-- The body of `CODE_RE` on the canonical layout
`` `​``python\n<c>\n`​`` ``: it succeeds and captures, up to stripping,
exactly `c`. -/
lemma tryBody_canonical (c : List Char) (hc : ∀ ch ∈ c, ¬ ch = '`') :
    ∃ g, tryBody ('\n' :: (c ++ '\n' :: '`' :: '`' :: '`' :: [])) = some g ∧
      pyStrip g = pyStrip c := by
  cases hmc : c.dropWhile isWS with
  | nil =>
      have hcall : ∀ ch ∈ c, isWS ch = true := by
        intro d hd
        have hsplit := List.takeWhile_append_dropWhile isWS c
        rw [hmc, List.append_nil] at hsplit
        rw [← hsplit] at hd
        exact List.mem_takeWhile_imp hd
      have hW : ('\n' :: (c ++ '\n' :: '`' :: '`' :: '`' :: [])).takeWhile isWS
          = '\n' :: (c ++ ['\n']) := by
        rw [List.takeWhile_cons_of_pos (by decide), twApp c _ hcall,
          List.takeWhile_cons_of_pos (by decide), List.takeWhile_cons_of_neg (by decide)]
      have hS : ('\n' :: (c ++ '\n' :: '`' :: '`' :: '`' :: [])).dropWhile isWS
          = '`' :: '`' :: '`' :: [] := by
        rw [List.dropWhile_cons_of_pos (by decide), dwApp c _ hcall,
          List.dropWhile_cons_of_pos (by decide), List.dropWhile_cons_of_neg (by decide)]
      unfold tryBody
      rw [hW, hS]
      have hg : ('`' :: '`' :: '`' :: []).takeWhile (fun d => ¬ d = '`') = [] := by decide
      simp only [hg]
      rw [if_pos (by decide)]
      rw [if_neg (by simp)]
      rw [show ('\n' :: (c ++ ['\n'])).reverse = '\n' :: (('\n' :: c).reverse) from by simp]
      refine ⟨_, rfl, ?_⟩
      rw [pyStrip_allWS (by intro d hd; simp at hd; rw [hd]; decide), pyStrip_allWS hcall]
  | cons x m' =>
      have hx : isWS x = false := dropWhile_head_false hmc
      have hsplit := List.takeWhile_append_dropWhile isWS c
      rw [hmc] at hsplit
      have hxmem : x ∈ c := by rw [← hsplit]; simp
      have hm'mem : ∀ d ∈ m', d ∈ c := by intro d hd; rw [← hsplit]; simp [hd]
      have htk : ∀ d ∈ c.takeWhile isWS, isWS d = true := fun d hd => List.mem_takeWhile_imp hd
      have hW : ('\n' :: (c ++ '\n' :: '`' :: '`' :: '`' :: [])).takeWhile isWS
          = '\n' :: c.takeWhile isWS := by
        rw [List.takeWhile_cons_of_pos (by decide)]
        congr 1
        conv_lhs => rw [← hsplit]
        rw [List.append_assoc, twApp _ _ htk]
        simp only [List.cons_append]
        rw [List.takeWhile_cons_of_neg (by simp [hx])]
        simp
      have hS : ('\n' :: (c ++ '\n' :: '`' :: '`' :: '`' :: [])).dropWhile isWS
          = x :: (m' ++ '\n' :: '`' :: '`' :: '`' :: []) := by
        rw [List.dropWhile_cons_of_pos (by decide)]
        conv_lhs => rw [← hsplit]
        rw [List.append_assoc, dwApp _ _ htk]
        simp only [List.cons_append]
        rw [List.dropWhile_cons_of_neg (by simp [hx])]
      unfold tryBody
      rw [hW, hS]
      have hg : (x :: (m' ++ '\n' :: '`' :: '`' :: '`' :: [])).takeWhile (fun d => ¬ d = '`')
          = x :: (m' ++ ['\n']) := by
        rw [List.takeWhile_cons_of_pos (by simp [hc x hxmem]), twApp m' _
            (fun d hd => by simp [hc d (hm'mem d hd)]),
          List.takeWhile_cons_of_pos (by decide), List.takeWhile_cons_of_neg (by simp)]
      simp only [hg]
      have hdrop : (x :: (m' ++ '\n' :: '`' :: '`' :: '`' :: [])).drop
          (x :: (m' ++ ['\n'])).length = '`' :: '`' :: '`' :: [] := by
        rw [show x :: (m' ++ '\n' :: '`' :: '`' :: '`' :: [])
            = (x :: (m' ++ ['\n'])) ++ ('`' :: '`' :: '`' :: []) from by simp]
        exact List.drop_left _ _
      rw [hdrop]
      rw [if_pos (by decide)]
      rw [if_pos (by simp)]
      refine ⟨_, rfl, ?_⟩
      rw [show x :: (m' ++ ['\n']) = (x :: m') ++ ['\n'] from by simp]
      rw [pyStrip_ws_suffix (by intro d hd; simp at hd; rw [hd]; decide)]
      conv_rhs => rw [← hsplit]
      exact (pyStrip_ws_front htk).symm

lemma headerMatch_cons_ne {label : String} {c : Char} {cs : List Char} (h : ¬ c = '#') :
    headerMatch label (c :: cs) = none := by
  cases cs with
  | nil => rfl
  | cons d r => simp [headerMatch, h]

lemma headerSearch_skip (label : String) : ∀ (pre rest : List Char),
    (∀ c ∈ pre, ¬ c = '#') → headerSearch label (pre ++ rest) = headerSearch label rest
  | [], rest, _ => rfl
  | c :: pre', rest, h => by
      have h1 : headerMatch label (c :: (pre' ++ rest)) = none :=
        headerMatch_cons_ne (h c (by simp))
      have h2 := headerSearch_skip label pre' rest (fun d hd => h d (by simp [hd]))
      simp only [List.cons_append, headerSearch, List.append_eq, h1, h2, Option.none_orElse]

lemma headerSearch_cons_some {label : String} {x : Char} {xs g : List Char}
    (h : headerMatch label (x :: xs) = some g) : headerSearch label (x :: xs) = some g := by
  simp [headerSearch, h]

lemma fenceMatch_cons_ne {c : Char} {cs : List Char} (h : ¬ c = '`') :
    fenceMatch (c :: cs) = none := by
  cases cs with
  | nil => rfl
  | cons d r =>
      cases r with
      | nil => rfl
      | cons e r2 => simp [fenceMatch, h]

lemma codeSearch_skip : ∀ (pre rest : List Char),
    (∀ c ∈ pre, ¬ c = '`') → codeSearch (pre ++ rest) = codeSearch rest
  | [], rest, _ => rfl
  | c :: pre', rest, h => by
      have h1 : fenceMatch (c :: (pre' ++ rest)) = none :=
        fenceMatch_cons_ne (h c (by simp))
      have h2 := codeSearch_skip pre' rest (fun d hd => h d (by simp [hd]))
      simp only [List.cons_append, codeSearch, List.append_eq, h1, h2, Option.none_orElse]

lemma codeSearch_cons_some {x : Char} {xs g : List Char}
    (h : fenceMatch (x :: xs) = some g) : codeSearch (x :: xs) = some g := by
  simp [codeSearch, h]

/-! ### Numeric-token lemmas -/

lemma isDigit_not_sign {c : Char} (h : isDigit c = true) : ¬ (c = '-' ∨ c = '+') := by
  intro hx
  rcases hx with rfl | rfl <;> exact absurd h (by decide)

lemma isDigit_not_dot {c : Char} (h : isDigit c = true) : ¬ c = '.' := by
  intro hx
  subst hx
  exact absurd h (by decide)

lemma isDigit_char_free {c : Char} (h : isDigit c = true) :
    ¬ c = 'x' ∧ ¬ c = ')' ∧ ¬ c = ',' ∧ isWS c = false ∧ isBreak c = false := by
  have hws : isWS c = false := by
    cases hb : isWS c with
    | false => rfl
    | true =>
        simp only [isWS, Bool.or_eq_true, decide_eq_true_eq] at hb
        rcases hb with ((((rfl | rfl) | rfl) | rfl) | rfl) | rfl <;> exact absurd h (by decide)
  have hbr : isBreak c = false := by
    cases hb : isBreak c with
    | false => rfl
    | true =>
        simp only [isBreak, Bool.or_eq_true, decide_eq_true_eq] at hb
        rcases hb with rfl | rfl <;> exact absurd h (by decide)
  exact ⟨fun hx => by subst hx; exact absurd h (by decide),
    fun hx => by subst hx; exact absurd h (by decide),
    fun hx => by subst hx; exact absurd h (by decide), hws, hbr⟩

lemma takeWhile_drop (p : Char → Bool) :
    ∀ (l : List Char), l = l.takeWhile p ++ l.drop (l.takeWhile p).length
  | [] => rfl
  | c :: r => by
      by_cases hc : p c = true
      · rw [List.takeWhile_cons_of_pos hc]
        simp only [List.length_cons, List.drop_succ_cons, List.cons_append]
        exact congrArg (c :: ·) (takeWhile_drop p r)
      · rw [List.takeWhile_cons_of_neg hc]
        rfl

/-- Inversion of a full-token body match: the token is the consumed sign
followed by digits and an optional dot-fraction. -/
lemma numTokBody_cases {sg1 body s2 : List Char} (h : numTokBody sg1 body = some (s2, [])) :
    ∃ ds fs, (∀ c ∈ ds, isDigit c = true) ∧ (∀ c ∈ fs, isDigit c = true) ∧
      ((s2 = sg1 ++ ds ∧ ¬ ds = []) ∨ (s2 = sg1 ++ (ds ++ '.' :: fs) ∧ ¬ fs = [])) := by
  unfold numTokBody at h
  cases hr2 : body.drop (body.takeWhile isDigit).length with
  | nil =>
      simp only [hr2] at h
      by_cases hds : ¬ body.takeWhile isDigit = []
      · rw [if_pos hds] at h
        simp only [Option.some.injEq, Prod.mk.injEq] at h
        exact ⟨body.takeWhile isDigit, [], fun d hd => List.mem_takeWhile_imp hd, by simp,
          Or.inl ⟨h.1.symm, hds⟩⟩
      · rw [if_neg hds] at h; cases h
  | cons d r3 =>
      simp only [hr2] at h
      by_cases hdot : d = '.'
      · rw [if_pos hdot] at h
        by_cases hfs : ¬ r3.takeWhile isDigit = []
        · rw [if_pos hfs] at h
          simp only [Option.some.injEq, Prod.mk.injEq] at h
          exact ⟨body.takeWhile isDigit, r3.takeWhile isDigit,
            fun e he => List.mem_takeWhile_imp he, fun e he => List.mem_takeWhile_imp he,
            Or.inr ⟨by rw [← List.append_assoc]; exact h.1.symm, hfs⟩⟩
        · rw [if_neg hfs] at h
          by_cases hds : ¬ body.takeWhile isDigit = []
          · rw [if_pos hds] at h
            simp only [Option.some.injEq, Prod.mk.injEq] at h
            exact absurd h.2 (by simp)
          · rw [if_neg hds] at h; cases h
      · rw [if_neg hdot] at h
        by_cases hds : ¬ body.takeWhile isDigit = []
        · rw [if_pos hds] at h
          simp only [Option.some.injEq, Prod.mk.injEq] at h
          exact absurd h.2 (by simp)
        · rw [if_neg hds] at h; cases h

/-- Inversion of a full-token match: a token is a sign, digits, and an
optional dot-fraction. -/
lemma numTok_self_cases {s : List Char} (h : numTok s = some (s, [])) :
    ∃ sg ds fs, (sg = [] ∨ sg = ['-'] ∨ sg = ['+']) ∧ (∀ c ∈ ds, isDigit c = true) ∧
      (∀ c ∈ fs, isDigit c = true) ∧
      ((s = sg ++ ds ∧ ¬ ds = []) ∨ (s = sg ++ (ds ++ '.' :: fs) ∧ ¬ fs = [])) := by
  cases s with
  | nil => exact absurd h (by decide)
  | cons c r =>
      simp only [numTok] at h
      by_cases hsgn : c = '-' ∨ c = '+'
      · rw [if_pos hsgn] at h
        obtain ⟨ds, fs, hds, hfs, hshape⟩ := numTokBody_cases h
        refine ⟨[c], ds, fs, ?_, hds, hfs, hshape⟩
        rcases hsgn with rfl | rfl
        · exact Or.inr (Or.inl rfl)
        · exact Or.inr (Or.inr rfl)
      · rw [if_neg hsgn] at h
        obtain ⟨ds, fs, hds, hfs, hshape⟩ := numTokBody_cases h
        exact ⟨[], ds, fs, Or.inl rfl, hds, hfs, hshape⟩

lemma numTok_self_chars {s : List Char} (h : numTok s = some (s, [])) :
    ∀ c ∈ s, isDigit c = true ∨ c = '.' ∨ c = '-' ∨ c = '+' := by
  obtain ⟨sg, ds, fs, hsg, hds, hfs, hshape⟩ := numTok_self_cases h
  intro c hc
  have hsgmem : ∀ d ∈ sg, d = '-' ∨ d = '+' := by
    rcases hsg with rfl | rfl | rfl <;> intro d hd <;> simp at hd <;> simp [hd]
  rcases hshape with ⟨hs, _⟩ | ⟨hs, _⟩
  · rw [hs] at hc
    rcases List.mem_append.mp hc with h1 | h1
    · rcases hsgmem c h1 with rfl | rfl
      · exact Or.inr (Or.inr (Or.inl rfl))
      · exact Or.inr (Or.inr (Or.inr rfl))
    · exact Or.inl (hds c h1)
  · rw [hs] at hc
    rcases List.mem_append.mp hc with h1 | h1
    · rcases hsgmem c h1 with rfl | rfl
      · exact Or.inr (Or.inr (Or.inl rfl))
      · exact Or.inr (Or.inr (Or.inr rfl))
    rcases List.mem_append.mp h1 with h1 | h1
    · exact Or.inl (hds c h1)
    rcases List.mem_cons.mp h1 with rfl | h1
    · exact Or.inr (Or.inl rfl)
    · exact Or.inl (hfs c h1)

lemma numTok_self_clean {s : List Char} (h : numTok s = some (s, [])) :
    ∀ c ∈ s, ¬ c = 'x' ∧ ¬ c = ')' ∧ ¬ c = ',' ∧ isWS c = false ∧ isBreak c = false := by
  intro c hc
  rcases numTok_self_chars h c hc with hd | rfl | rfl | rfl
  · exact isDigit_char_free hd
  · exact ⟨by decide, by decide, by decide, by decide, by decide⟩
  · exact ⟨by decide, by decide, by decide, by decide, by decide⟩
  · exact ⟨by decide, by decide, by decide, by decide, by decide⟩

lemma numTok_self_ne_nil {s : List Char} (h : numTok s = some (s, [])) : ¬ s = [] := by
  intro hx
  subst hx
  exact absurd h (by decide)

lemma tw_digit_comma {ds : List Char} (hds : ∀ c ∈ ds, isDigit c = true) (r : List Char) :
    (ds ++ ',' :: r).takeWhile isDigit = ds := by
  rw [twApp ds _ hds, List.takeWhile_cons_of_neg (by decide), List.append_nil]

lemma tw_digit_dot {ds : List Char} (hds : ∀ c ∈ ds, isDigit c = true) (r : List Char) :
    (ds ++ '.' :: r).takeWhile isDigit = ds := by
  rw [twApp ds _ hds, List.takeWhile_cons_of_neg (by decide), List.append_nil]

/-- The token body followed by a comma re-matches as the token with the
comma as remainder (integer shape). -/
lemma numTokBody_int {sg1 ds : List Char} (r : List Char) (hds : ∀ c ∈ ds, isDigit c = true)
    (hdne : ¬ ds = []) :
    numTokBody sg1 (ds ++ ',' :: r) = some (sg1 ++ ds, ',' :: r) := by
  unfold numTokBody
  simp only [tw_digit_comma hds r, List.drop_left]
  rw [if_neg (by decide), if_pos hdne]

/-- The token body followed by a comma re-matches as the token with the
comma as remainder (fractional shape). -/
lemma numTokBody_frac {sg1 ds fs : List Char} (r : List Char)
    (hds : ∀ c ∈ ds, isDigit c = true) (hfs : ∀ c ∈ fs, isDigit c = true)
    (hfne : ¬ fs = []) :
    numTokBody sg1 (ds ++ '.' :: (fs ++ ',' :: r)) = some (sg1 ++ ds ++ '.' :: fs, ',' :: r) := by
  unfold numTokBody
  simp only [tw_digit_dot hds (fs ++ ',' :: r), tw_digit_comma hfs r, List.drop_left]
  rw [if_pos trivial, if_pos hfne]

/-- A full numeric token followed by a comma re-matches as itself, with
the comma and everything after it as the remainder. -/
lemma numTok_append_comma {s : List Char} (h : numTok s = some (s, [])) (r : List Char) :
    numTok (s ++ ',' :: r) = some (s, ',' :: r) := by
  obtain ⟨sg, ds, fs, hsg, hds, hfs, hshape⟩ := numTok_self_cases h
  rcases hshape with ⟨hs, hdne⟩ | ⟨hs, hfne⟩
  · subst hs
    obtain ⟨d0, ds2, rfl⟩ := List.exists_cons_of_ne_nil hdne
    have hd0 : isDigit d0 = true := hds d0 (by simp)
    rcases hsg with rfl | rfl | rfl
    · show numTok (d0 :: (ds2 ++ ',' :: r)) = some ([] ++ d0 :: ds2, ',' :: r)
      simp only [numTok]
      rw [if_neg (isDigit_not_sign hd0)]
      exact numTokBody_int r hds hdne
    · show numTok ('-' :: ((d0 :: ds2) ++ ',' :: r)) = some (['-'] ++ d0 :: ds2, ',' :: r)
      simp only [numTok]
      rw [if_pos (Or.inl trivial)]
      exact numTokBody_int r hds hdne
    · show numTok ('+' :: ((d0 :: ds2) ++ ',' :: r)) = some (['+'] ++ d0 :: ds2, ',' :: r)
      simp only [numTok]
      rw [if_pos (Or.inr trivial)]
      exact numTokBody_int r hds hdne
  · subst hs
    rcases hsg with rfl | rfl | rfl
    · have e : (([] ++ (ds ++ '.' :: fs)) ++ ',' :: r) = ds ++ '.' :: (fs ++ ',' :: r) := by simp
      rw [e]
      cases ds with
      | nil =>
          show numTok ('.' :: (fs ++ ',' :: r)) = some ([] ++ ([] ++ '.' :: fs), ',' :: r)
          simp only [numTok]
          rw [if_neg (by decide)]
          exact @numTokBody_frac [] [] fs r (fun c hc => nomatch hc) hfs hfne
      | cons e0 ds2 =>
          have he : isDigit e0 = true := hds e0 (by simp)
          show numTok (e0 :: (ds2 ++ '.' :: (fs ++ ',' :: r)))
              = some ([] ++ ((e0 :: ds2) ++ '.' :: fs), ',' :: r)
          simp only [numTok]
          rw [if_neg (isDigit_not_sign he)]
          exact numTokBody_frac r hds hfs hfne
    · have e : ((['-'] ++ (ds ++ '.' :: fs)) ++ ',' :: r) = '-' :: (ds ++ '.' :: (fs ++ ',' :: r)) := by
        simp
      rw [e]
      simp only [numTok]
      rw [if_pos (Or.inl trivial)]
      exact numTokBody_frac r hds hfs hfne
    · have e : ((['+'] ++ (ds ++ '.' :: fs)) ++ ',' :: r) = '+' :: (ds ++ '.' :: (fs ++ ',' :: r)) := by
        simp
      rw [e]
      simp only [numTok]
      rw [if_pos (Or.inr trivial)]
      exact numTokBody_frac r hds hfs hfne

/-! ### Numeric literals that are integers, and their scaling -/

lemma tokDecPos_digits {r : List Char} (h : ∀ c ∈ r, isDigit c = true) :
    tokDecPos r = ((natOfDigits r : ℤ), 0) := by
  unfold tokDecPos
  simp only [twAll h, List.drop_length]

lemma tokDec_neg (r : List Char) : tokDec ('-' :: r) = (-(tokDecPos r).1, (tokDecPos r).2) := by
  simp [tokDec]

lemma tokDec_pos (r : List Char) : tokDec ('+' :: r) = tokDecPos r := by
  simp [tokDec]

lemma tokDec_plain {c : Char} (r : List Char) (h1 : ¬ c = '-') (h2 : ¬ c = '+') :
    tokDec (c :: r) = tokDecPos (c :: r) := by
  simp [tokDec, h1, h2]

/-- A token accepted by Python's `int()` denotes exactly that integer as
a decimal literal. -/
lemma pyInt_tokDec {s : List Char} {n : ℤ} (h : pyInt s = some n) : tokDec s = (n, 0) := by
  cases s with
  | nil => cases h
  | cons c r =>
      simp only [pyInt] at h
      by_cases hm : c = '-'
      · subst hm
        rw [if_pos rfl] at h
        by_cases hd : ¬ r = [] ∧ r.all isDigit
        · rw [if_pos hd] at h
          have hr : ∀ e ∈ r, isDigit e = true := by
            intro e he
            have h2 := hd.2
            rw [List.all_eq_true] at h2
            exact h2 e he
          simp only [Option.some.injEq] at h
          rw [tokDec_neg, tokDecPos_digits hr, ← h]
        · rw [if_neg hd] at h; cases h
      · rw [if_neg hm] at h
        by_cases hp : c = '+'
        · subst hp
          rw [if_pos rfl] at h
          by_cases hd : ¬ r = [] ∧ r.all isDigit
          · rw [if_pos hd] at h
            have hr : ∀ e ∈ r, isDigit e = true := by
              intro e he
              have h2 := hd.2
              rw [List.all_eq_true] at h2
              exact h2 e he
            simp only [Option.some.injEq] at h
            rw [tokDec_pos, tokDecPos_digits hr, ← h]
          · rw [if_neg hd] at h; cases h
        · rw [if_neg hp] at h
          by_cases hd : (c :: r).all isDigit = true
          · rw [if_pos hd] at h
            have hr : ∀ e ∈ (c :: r), isDigit e = true := by
              intro e he
              rw [List.all_eq_true] at hd
              exact hd e he
            simp only [Option.some.injEq] at h
            rw [tokDec_plain r hm hp, tokDecPos_digits hr, ← h]
          · rw [if_neg hd] at h; cases h

/-- Scaling a whole-number decimal literal is exact multiplication. -/
lemma scaleBy_pow_zero (dim n : ℤ) : scaleBy dim (n, 0) = dim * n := by
  unfold scaleBy
  dsimp only
  simp only [pow_zero, Nat.div_one]
  split <;> omega

/-! ### Lemmas locating the bare coordinate pair in a scroll argument -/

lemma pyStrip_clean {l : List Char} (h : ∀ c ∈ l, isWS c = false) : pyStrip l = l := by
  unfold pyStrip
  rw [dwNone h, dwNone fun c hc => h c (List.mem_reverse.mp hc), List.reverse_reverse]

lemma pyStrip_ends {c d : Char} (mid : List Char) (hc : isWS c = false) (hd : isWS d = false) :
    pyStrip (c :: (mid ++ [d])) = c :: (mid ++ [d]) := by
  unfold pyStrip
  rw [List.dropWhile_cons_of_neg (by simp [hc])]
  have hrev : (c :: (mid ++ [d])).reverse = d :: (mid.reverse ++ [c]) := by simp
  rw [hrev, List.dropWhile_cons_of_neg (by simp [hd]), ← hrev, List.reverse_reverse]

lemma namedAt_no_x {c : Char} (r : List Char) (h : ¬ c = 'x') : namedAt (c :: r) = none := by
  simp only [namedAt]
  rw [if_neg h]

/-- `NAMED_COORD` finds no match in a string without the letter `x`. -/
lemma namedSearch_no_x : ∀ {cs : List Char}, (∀ c ∈ cs, ¬ c = 'x') → namedSearch cs = none
  | [], _ => rfl
  | c :: r, h => by
      have h1 := namedAt_no_x r (h c (List.mem_cons_self c r))
      have h2 := namedSearch_no_x fun e he => h e (List.mem_cons_of_mem c he)
      simp only [namedSearch, h1, h2]
      rfl

lemma pairSearch_head {c : Char} {r : List Char} {p : Dec × Dec} (h : pairAt (c :: r) = some p) :
    pairSearch (c :: r) = some p := by
  simp only [pairSearch, h]
  rfl

/-! ### A single break-free line survives the line splitting intact -/

lemma fuseCRLF_no_break : ∀ {l : List Char}, (∀ c ∈ l, isBreak c = false) → fuseCRLF l = l
  | [], _ => rfl
  | [_], _ => rfl
  | c :: d :: r, h => by
      have hc : isBreak c = false := h c (List.mem_cons_self c _)
      have hrec := fuseCRLF_no_break fun e he => h e (List.mem_cons_of_mem c he)
      simp only [fuseCRLF, hrec]
      rw [if_neg]
      intro hcd
      rw [hcd.1] at hc
      exact absurd hc (by decide)

lemma splitBreaks_no_break : ∀ {l : List Char}, (∀ c ∈ l, isBreak c = false) → splitBreaks l = [l]
  | [], _ => rfl
  | c :: r, h => by
      have hc : isBreak c = false := h c (List.mem_cons_self c r)
      have hrec := splitBreaks_no_break fun e he => h e (List.mem_cons_of_mem c he)
      simp [splitBreaks, hc, hrec]

lemma pySplitlines_single {line : List Char} (hb : ∀ c ∈ line, isBreak c = false)
    (hne : ¬ line = []) : pySplitlines line = [line] := by
  unfold pySplitlines
  rw [fuseCRLF_no_break hb, splitBreaks_no_break hb]
  rw [if_neg (by simp [hne])]

lemma linesOf_single {line : List Char} {c d : Char} {mid : List Char}
    (he : line = c :: (mid ++ [d])) (hb : ∀ x ∈ line, isBreak x = false)
    (hc : isWS c = false) (hd : isWS d = false) : linesOf line = [line] := by
  have hne : ¬ line = [] := by rw [he]; simp
  unfold linesOf
  rw [pySplitlines_single hb hne]
  have hstrip : pyStrip line = line := by rw [he]; exact pyStrip_ends mid hc hd
  simp [hstrip, hne]

/-- The step of the scan on a `pyautogui.scroll(...)` line whose first
comma-separated argument parses as the integer `n`: it sets the scroll
mouse action with the coordinates returned by `_parse_coords` on the
full argument string. -/
lemma lineStep_scroll (st : BState) (args : List Char) (h : ∀ c ∈ args, ¬ c = ')')
    {n : ℤ} {x y : Option ℤ}
    (hn : pyInt (pyStrip (args.takeWhile (fun c => ¬ c = ','))) = some n)
    (hxy : parse_coords args = (x, y)) :
    lineStep st (mkCall "scroll" args) =
      some { st with mouse_action := some (.scroll x y n) } := by
  unfold lineStep
  have h1 : clickFam (mkCall "scroll" args) = none := rfl
  simp only [h1, callArgs_mkCall "scroll" args h, hn, hxy]

/-! ### Aggregator-level lemmas -/

lemma process_task_instruction {id : String} {cfg : Option Config} {rows : List Row}
    {t : Task} (h : process_task id cfg rows = some t) :
    t.instruction = getInstruction cfg := by
  unfold process_task at h
  cases hm : rows.mapM (processStep id) with
  | none => rw [hm] at h; cases h
  | some steps => rw [hm] at h; cases Option.some.inj h; rfl

/-! ### Claim C5: coordinate scaling -/

/-- C5.  Coordinate scaling is deterministic and uses one rule everywhere
coordinates are parsed: any fractional pair found by `_parse_coords`
(either in named or in bare form) is multiplied by the fixed 1920×1080
canvas and truncated toward zero; in particular `(0.5, 0.5)` scales to
`(960, 540)`. -/
theorem c5_coordinate_scaling :
    (∀ (args : List Char) (v : Dec × Dec), rawCoords args = some v →
      parse_coords args =
        (some (specTrunc ((1920 : ℚ) * qVal v.1)), some (specTrunc ((1080 : ℚ) * qVal v.2)))) ∧
    parse_coords "x=0.5, y=0.5".data = (some 960, some 540) ∧
    parse_coords "0.5, 0.5".data = (some 960, some 540) := by
  refine ⟨?_, by decide, by decide⟩
  intro args v h
  obtain ⟨v1, v2⟩ := v
  unfold parse_coords
  rw [h]
  dsimp only
  rw [scaleBy_eq_specTrunc, scaleBy_eq_specTrunc]
  norm_num

/-- Witness for C5 at the fractional pair `(0.5, 0.5)` parsed from the
named-coordinate argument string. -/
theorem c5_coordinate_scaling_witness :
    rawCoords "x=0.5, y=0.5".data = some ((5, 1), (5, 1)) ∧
    parse_coords "x=0.5, y=0.5".data =
      (some (specTrunc ((1920 : ℚ) * qVal (5, 1))), some (specTrunc ((1080 : ℚ) * qVal (5, 1)))) :=
  ⟨by decide, c5_coordinate_scaling.1 "x=0.5, y=0.5".data ((5, 1), (5, 1)) (by decide)⟩

/-! ### Claim C6: the termination sentinel forces "DONE" -/

/-- C6.  Whenever the extracted code segment contains the termination
sentinel `computer.terminate`, the emitted step's action field is exactly
`"DONE"`, whatever the Action header contained. -/
theorem c6_terminate_forces_done (taskId : String) (row : Row) (st : Step)
    (h : processStep taskId row = some st)
    (hterm : containsSub sentinel (extract_sections row.response.data).2.2 = true) :
    st.action = "DONE" := by
  simp only [processStep] at h
  rw [hterm] at h
  cases hba : build_actions (extract_sections row.response.data).2.2 with
  | none => rw [hba] at h; cases h
  | some acts =>
      rw [hba] at h
      simp only [if_true] at h
      cases Option.some.inj h
      rfl

/-- Witness for C6: a concrete row whose Action header says
`Stop here` but whose code block calls `computer.terminate()`. -/
theorem c6_terminate_forces_done_witness :
    (processStep "t1"
        ⟨3, "## Action:\nStop here\n```python\ncomputer.terminate()\n```", "shot3.png"⟩).map
      Step.action = some "DONE" := by
  cases hs : processStep "t1"
      ⟨3, "## Action:\nStop here\n```python\ncomputer.terminate()\n```", "shot3.png"⟩ with
  | none => exact absurd hs (by decide)
  | some st => exact congrArg some (c6_terminate_forces_done _ _ _ hs (by decide))

/-! ### Claim C8: the scroll example -/

/-- C8.  On the code block `pyautogui.scroll(-5, x=0.5, y=0.5)` the
recognizer emits the scroll record with `x = 960`, `y = 540`,
`clicks = -5`. -/
theorem c8_scroll_example :
    build_actions "pyautogui.scroll(-5, x=0.5, y=0.5)".data =
      some (some (.scroll (some 960) (some 540) (-5)), none) := by decide

/-! ### Claim C9: instruction precedence -/

/-- C9 counterexample.  A configuration that supplies the instruction
string `""` (together with a prompt) does not see that string emitted:
the prompt's trimmed value wins, because Python's `or` falls through on
the empty string. -/
theorem c9_counterexample :
    process_task "t1" (some ⟨some "", some " hi "⟩) [] =
      some { id := "t1", steps := [], instruction := "hi" } ∧
    ¬ ("hi" : String) = "" := by decide

/-- C9 amended.  A present, non-empty `instruction` value is emitted
verbatim; an empty (or missing) `instruction` falls back to the trimmed
`prompt` (empty when `prompt` is missing); a missing configuration file
yields the empty instruction. -/
theorem c9_instruction_amended :
    (∀ (id : String) (rows : List Row) (s : String) (p : Option String) (t : Task),
        ¬ s = "" → process_task id (some ⟨some s, p⟩) rows = some t → t.instruction = s) ∧
    (∀ (id : String) (rows : List Row) (t : Task),
        process_task id none rows = some t → t.instruction = "") ∧
    (∀ (id : String) (rows : List Row) (p : Option String) (t : Task),
        process_task id (some ⟨some "", p⟩) rows = some t →
          t.instruction = pyStripS (p.getD "")) := by
  refine ⟨?_, ?_, ?_⟩
  · intro id rows s p t hs h
    rw [process_task_instruction h]
    simp [getInstruction, hs]
  · intro id rows t h
    rw [process_task_instruction h]
    rfl
  · intro id rows p t h
    rw [process_task_instruction h]
    simp [getInstruction]

/-- Witness for C9 at concrete configurations. -/
theorem c9_instruction_amended_witness :
    ¬ ("Do it" : String) = "" ∧
    ((⟨"t1", [], "Do it"⟩ : Task).instruction = "Do it") ∧
    ((⟨"t2", [], ""⟩ : Task).instruction = "") ∧
    ((⟨"t3", [], "hi"⟩ : Task).instruction = pyStripS ((some " hi ").getD "")) :=
  ⟨by decide,
   c9_instruction_amended.1 "t1" [] "Do it" (some " hi ") _ (by decide) (by decide),
   c9_instruction_amended.2.1 "t2" [] _ (by decide),
   c9_instruction_amended.2.2 "t3" [] (some " hi ") _ (by decide)⟩

/-! ### Counterexamples for C1, C2, C3, C4, C7 -/

/-- C1 counterexample.  A recognized `write` line without a quoted
literal, a `scroll` line whose first argument is not an integer literal,
and a recognized `press` line without a quoted literal all abort
`build_actions` (in Python: `AttributeError` or `ValueError`) instead of
yielding empty fields. -/
theorem c1_counterexample :
    build_actions "pyautogui.write(abc)".data = none ∧
    build_actions "pyautogui.scroll(x=0.5, y=0.5)".data = none ∧
    build_actions "pyautogui.press(enter)".data = none := by decide

/-- C1 amended.  Lines matching no recognized call shape are ignored
(the scan state passes through unchanged), but a recognized
`write`/`typewrite` or `press` line whose arguments contain no quoted
literal, and a recognized `scroll` line whose first argument is not an
integer literal, abort the recognizer (an uncaught exception) instead of
yielding empty fields. -/
theorem c1_failure_semantics_amended :
    (∀ (st : BState) (line : List Char), ¬ recognized line → lineStep st line = some st) ∧
    (∀ (st : BState) (args : List Char), (∀ c ∈ args, ¬ c = ')') →
      (∀ c ∈ args, isQuote c = false) → lineStep st (mkCall "write" args) = none) ∧
    (∀ (st : BState) (args : List Char), (∀ c ∈ args, ¬ c = ')') →
      (∀ c ∈ args, isQuote c = false) → lineStep st (mkCall "press" args) = none) ∧
    (∀ (st : BState) (args : List Char), (∀ c ∈ args, ¬ c = ')') →
      pyInt (pyStrip (args.takeWhile (fun c => ¬ c = ','))) = none →
      lineStep st (mkCall "scroll" args) = none) := by
  refine ⟨?_, ?_, ?_, ?_⟩
  · intro st line hr
    unfold recognized at hr
    push_neg at hr
    obtain ⟨h1, h2, h3, h4, h5, h6⟩ := hr
    unfold lineStep
    simp only [h1, h2, h3, h4, h5, h6]
  · intro st args hp hq
    unfold lineStep
    have h1 : clickFam (mkCall "write" args) = none := rfl
    have h2 : callArgs "scroll" (mkCall "write" args) = none := rfl
    have h3 : moveFam (mkCall "write" args) = none := rfl
    have h4 : callArgs "dragTo" (mkCall "write" args) = none := rfl
    simp only [h1, h2, h3, h4, writeFam_mkCall args hp, quoteSearchMsg_no_quote hq]
  · intro st args hp hq
    unfold lineStep
    have h1 : clickFam (mkCall "press" args) = none := rfl
    have h2 : callArgs "scroll" (mkCall "press" args) = none := rfl
    have h3 : moveFam (mkCall "press" args) = none := rfl
    have h4 : callArgs "dragTo" (mkCall "press" args) = none := rfl
    have h5 : writeFam (mkCall "press" args) = none := rfl
    simp only [h1, h2, h3, h4, h5, callArgs_mkCall "press" args hp, quoteSearch_no_quote hq]
  · intro st args hp hint
    unfold lineStep
    have h1 : clickFam (mkCall "scroll" args) = none := rfl
    simp only [h1, callArgs_mkCall "scroll" args hp, hint]

/-- Witness for C1 at concrete lines: the unmatched line `hello`, the
quoteless `pyautogui.write(abc)` and `pyautogui.press(enter)`, and the
integerless `pyautogui.scroll(x=0.5, y=0.5)`. -/
theorem c1_failure_semantics_amended_witness :
    lineStep ⟨none, none, none⟩ "hello".data = some ⟨none, none, none⟩ ∧
    lineStep ⟨none, none, none⟩ (mkCall "write" "abc".data) = none ∧
    lineStep ⟨none, none, none⟩ (mkCall "press" "enter".data) = none ∧
    lineStep ⟨none, none, none⟩ (mkCall "scroll" "x=0.5, y=0.5".data) = none :=
  ⟨c1_failure_semantics_amended.1 ⟨none, none, none⟩ "hello".data (by decide),
   c1_failure_semantics_amended.2.1 ⟨none, none, none⟩ "abc".data (by decide) (by decide),
   c1_failure_semantics_amended.2.2.1 ⟨none, none, none⟩ "enter".data (by decide) (by decide),
   c1_failure_semantics_amended.2.2.2 ⟨none, none, none⟩ "x=0.5, y=0.5".data (by decide) (by decide)⟩

/-- C2 amended.  A plain `click` line always sets the MouseAction itself
and never the pending drag start; only a `moveTo` line records the
pending drag start; and a `moveTo` line immediately followed by a
`dragTo` line yields the single combined drag record. -/
theorem c2_drag_anchor_amended :
    (∀ (st : BState) (args : List Char), (∀ c ∈ args, ¬ c = ')') →
      lineStep st (mkCall "click" args) =
        some { st with mouse_action := some (.click "click" (parse_coords args).1 (parse_coords args).2) }) ∧
    (∀ (st : BState) (args : List Char), (∀ c ∈ args, ¬ c = ')') →
      lineStep st (mkCall "moveTo" args) =
        some { st with start_coords := some (parse_coords args) }) ∧
    build_actions "pyautogui.moveTo(0.1, 0.2)\npyautogui.dragTo(0.3, 0.4)".data =
      some (some (.drag (some 192) (some 216) (some 576) (some 432)), none) :=
  ⟨lineStep_click, lineStep_moveTo, by decide⟩

/-- Witness for C2 at a concrete state and concrete coordinates. -/
theorem c2_drag_anchor_amended_witness :
    lineStep ⟨none, none, none⟩ (mkCall "click" "0.1, 0.2".data) =
      some { mouse_action := some (.click "click" (parse_coords "0.1, 0.2".data).1 (parse_coords "0.1, 0.2".data).2), keyboard_action := none, start_coords := none } ∧
    lineStep ⟨none, none, none⟩ (mkCall "moveTo" "0.1, 0.2".data) =
      some { mouse_action := none, keyboard_action := none, start_coords := some (parse_coords "0.1, 0.2".data) } :=
  ⟨c2_drag_anchor_amended.1 ⟨none, none, none⟩ "0.1, 0.2".data (by decide),
   c2_drag_anchor_amended.2.1 ⟨none, none, none⟩ "0.1, 0.2".data (by decide)⟩

/-- C3 amended.  A drag is emitted only when a pending drag start from a
`moveTo` line of the same block exists (never from a `click`, and never
across invocations: a block with no `moveTo` line yields no drag); but
the pending start is not consumed by a drag — it survives the `dragTo`
line itself and any intervening lines, so later `dragTo` lines in the
same block reuse it. -/
theorem c3_pending_drag_amended :
    (∀ (code : List Char) (r : Option MouseAction × Option KeyboardAction),
      (∀ l ∈ linesOf code, ¬ isAnchor l) → build_actions code = some r →
      isDragB r.1 = false) ∧
    (∀ (st : BState) (args : List Char), st.start_coords = none → (∀ c ∈ args, ¬ c = ')') →
      lineStep st (mkCall "dragTo" args) = some st) ∧
    (∀ (st : BState) (args : List Char) (p : Option ℤ × Option ℤ),
      st.start_coords = some p → (∀ c ∈ args, ¬ c = ')') →
      lineStep st (mkCall "dragTo" args) =
        some { st with mouse_action := some (.drag p.1 p.2 (parse_coords args).1 (parse_coords args).2) }) := by
  refine ⟨?_, ?_, ?_⟩
  · intro code r hm h
    unfold build_actions at h
    cases hf : (linesOf code).foldlM lineStep ⟨none, none, none⟩ with
    | none => rw [hf] at h; cases h
    | some st'' =>
        rw [hf] at h
        cases Option.some.inj h
        exact (foldlM_no_move (linesOf code) ⟨none, none, none⟩ hm rfl rfl st'' hf).2
  · intro st args hst hp
    exact lineStep_dragTo_none st args hst hp
  · intro st args p hst hp
    exact lineStep_dragTo_pending st args p hst hp

/-- Witness for C3: a block whose only line is a `click` yields no drag,
and concrete `dragTo` steps with and without a pending start. -/
theorem c3_pending_drag_amended_witness :
    isDragB (some (.click "click" (some 960) (some 540))) = false ∧
    lineStep ⟨none, none, none⟩ (mkCall "dragTo" "0.3, 0.4".data) = some ⟨none, none, none⟩ ∧
    lineStep ⟨none, none, some (some 192, some 216)⟩ (mkCall "dragTo" "0.3, 0.4".data) =
      some { mouse_action := some (.drag (some 192) (some 216) (parse_coords "0.3, 0.4".data).1 (parse_coords "0.3, 0.4".data).2), keyboard_action := none, start_coords := some (some 192, some 216) } :=
  ⟨c3_pending_drag_amended.1 "pyautogui.click(0.5, 0.5)".data
      (some (.click "click" (some 960) (some 540)), none) (by decide) (by decide),
   c3_pending_drag_amended.2.1 ⟨none, none, none⟩ "0.3, 0.4".data (by decide) (by decide),
   c3_pending_drag_amended.2.2 ⟨none, none, some (some 192, some 216)⟩ "0.3, 0.4".data
      (some 192, some 216) (by decide) (by decide)⟩

/-- C4 amended.  The `write` branch extracts the minimal nonempty run
between the first quote character and the next quote character of either
kind; for a double-quoted literal whose content contains no quote
characters the content is extracted verbatim. -/
theorem c4_write_extraction_amended (st : BState) (s : List Char) (hne : ¬ s = [])
    (hq : ∀ c ∈ s, isQuote c = false) (hp : ∀ c ∈ s, ¬ c = ')') :
    lineStep st (mkCall "write" ('"' :: (s ++ ['"']))) =
      some { st with keyboard_action := some (.type (String.mk s)) } := by
  have hargs : ∀ c ∈ '"' :: (s ++ ['"']), ¬ c = ')' := by
    intro c hc
    rcases List.mem_cons.mp hc with rfl | hc2
    · decide
    · rcases List.mem_append.mp hc2 with hc3 | hc3
      · exact hp c hc3
      · simp at hc3
        subst hc3
        decide
  unfold lineStep
  have h1 : clickFam (mkCall "write" ('"' :: (s ++ ['"']))) = none := rfl
  have h2 : callArgs "scroll" (mkCall "write" ('"' :: (s ++ ['"']))) = none := rfl
  have h3 : moveFam (mkCall "write" ('"' :: (s ++ ['"']))) = none := rfl
  have h4 : callArgs "dragTo" (mkCall "write" ('"' :: (s ++ ['"']))) = none := rfl
  simp only [h1, h2, h3, h4, writeFam_mkCall ('"' :: (s ++ ['"'])) hargs,
    quoteSearchMsg_quoted s hne hq]

/-- Witness for C4 at the content `hello world` (matching the claim's
example `write("hello world")`). -/
theorem c4_write_extraction_amended_witness :
    lineStep ⟨none, none, none⟩ (mkCall "write" ('"' :: ("hello world".data ++ ['"']))) =
      some { mouse_action := none, keyboard_action := some (.type (String.mk "hello world".data)), start_coords := none } :=
  c4_write_extraction_amended ⟨none, none, none⟩ "hello world".data (by decide) (by decide)
    (by decide)

/-- C7 amended.  For responses in the canonical layout whose thought and
action texts contain no `#` or backtick and whose code contains no
backtick, extraction returns exactly the enclosed texts, trimmed (the
capture groups run up to the next `#` or backtick character, not only up
to a full header marker or fence, hence the restriction); and for every
response without a `#` (resp. without a backtick) the thought and action
fields (resp. the code field) are empty and no error is raised. -/
theorem c7_extraction_amended :
    (∀ (t a c : List Char), (∀ ch ∈ t, okHdr ch = true) → (∀ ch ∈ a, okHdr ch = true) →
      (∀ ch ∈ c, ¬ ch = '`') →
      extract_sections (mkResponse t a c) = (pyStrip t, pyStrip a, pyStrip c)) ∧
    (∀ resp : List Char, (∀ ch ∈ resp, ¬ ch = '#') →
      (extract_sections resp).1 = [] ∧ (extract_sections resp).2.1 = []) ∧
    (∀ resp : List Char, (∀ ch ∈ resp, ¬ ch = '`') → (extract_sections resp).2.2 = []) := by
  refine ⟨?_, ?_, ?_⟩
  · intro t a c ht ha hc
    obtain ⟨gt, hgt, hst⟩ := nlBack_canonical t
      ("# Action:\n".data ++ (a ++ ("\n```python\n".data ++ (c ++ "\n```".data)))) '#' ht
      (by decide)
    have hmT : headerMatch "Thought:" (mkResponse t a c) =
        nlBack (('\n' :: (t ++ '\n' :: '#' :: ("# Action:\n".data ++ (a ++ ("\n```python\n".data ++ (c ++ "\n```".data)))))).takeWhile isWS)
               (('\n' :: (t ++ '\n' :: '#' :: ("# Action:\n".data ++ (a ++ ("\n```python\n".data ++ (c ++ "\n```".data)))))).dropWhile isWS) := rfl
    rw [hgt] at hmT
    have hT : headerSearch "Thought:" (mkResponse t a c) = some gt := headerSearch_cons_some hmT
    obtain ⟨ga, hga, hsa⟩ := nlBack_canonical a ("``python\n".data ++ (c ++ "\n```".data)) '`' ha
      (by decide)
    have e1 : headerSearch "Action:" (mkResponse t a c) =
        headerSearch "Action:" (" Thought:\n".data ++ (t ++ ("\n## Action:\n".data ++ (a ++ ("\n```python\n".data ++ (c ++ "\n```".data)))))) := rfl
    have e2 : " Thought:\n".data ++ (t ++ ("\n## Action:\n".data ++ (a ++ ("\n```python\n".data ++ (c ++ "\n```".data)))))
        = (" Thought:\n".data ++ (t ++ ['\n'])) ++ ("## Action:\n".data ++ (a ++ ("\n```python\n".data ++ (c ++ "\n```".data)))) := by
      rw [show "\n## Action:\n".data = ['\n'] ++ "## Action:\n".data from rfl]
      simp [List.append_assoc]
    have hpre : ∀ ch ∈ " Thought:\n".data ++ (t ++ ['\n']), ¬ ch = '#' := by
      have hfix : ∀ ch ∈ " Thought:\n".data, ¬ ch = '#' := by decide
      intro ch hch
      rcases List.mem_append.mp hch with h1 | h1
      · exact hfix ch h1
      rcases List.mem_append.mp h1 with h1 | h1
      · exact (okHdr_parts (ht ch h1)).1
      · simp only [List.mem_singleton] at h1
        rw [h1]; decide
    have hA : headerSearch "Action:" (mkResponse t a c) = some ga := by
      rw [e1, e2, headerSearch_skip "Action:" _ _ hpre]
      have hmA : headerMatch "Action:" ("## Action:\n".data ++ (a ++ ("\n```python\n".data ++ (c ++ "\n```".data)))) =
          nlBack (('\n' :: (a ++ '\n' :: '`' :: ("``python\n".data ++ (c ++ "\n```".data)))).takeWhile isWS)
                 (('\n' :: (a ++ '\n' :: '`' :: ("``python\n".data ++ (c ++ "\n```".data)))).dropWhile isWS) := rfl
      rw [hga] at hmA
      exact headerSearch_cons_some hmA
    obtain ⟨gc, hgc, hsc⟩ := tryBody_canonical c hc
    have e3 : mkResponse t a c
        = ("## Thought:\n".data ++ (t ++ ("\n## Action:\n".data ++ (a ++ ['\n'])))) ++ ("```python\n".data ++ (c ++ "\n```".data)) := by
      unfold mkResponse
      rw [show "\n```python\n".data = ['\n'] ++ "```python\n".data from rfl]
      simp [List.append_assoc]
    have hpreC : ∀ ch ∈ "## Thought:\n".data ++ (t ++ ("\n## Action:\n".data ++ (a ++ ['\n']))), ¬ ch = '`' := by
      have hfix1 : ∀ ch ∈ "## Thought:\n".data, ¬ ch = '`' := by decide
      have hfix2 : ∀ ch ∈ "\n## Action:\n".data, ¬ ch = '`' := by decide
      intro ch hch
      rcases List.mem_append.mp hch with h1 | h1
      · exact hfix1 ch h1
      rcases List.mem_append.mp h1 with h1 | h1
      · exact (okHdr_parts (ht ch h1)).2
      rcases List.mem_append.mp h1 with h1 | h1
      · exact hfix2 ch h1
      rcases List.mem_append.mp h1 with h1 | h1
      · exact (okHdr_parts (ha ch h1)).2
      · simp only [List.mem_singleton] at h1
        rw [h1]; decide
    have hC : codeSearch (mkResponse t a c) = some gc := by
      rw [e3, codeSearch_skip _ _ hpreC]
      have hmC : fenceMatch ("```python\n".data ++ (c ++ "\n```".data)) =
          (tryBody ('\n' :: (c ++ '\n' :: '`' :: '`' :: '`' :: [])) <|>
            (none <|> tryBody ("python\n".data ++ (c ++ "\n```".data)))) := rfl
      rw [hgc] at hmC
      rw [show (some gc <|> (none <|> tryBody ("python\n".data ++ (c ++ "\n```".data)))) = some gc from rfl] at hmC
      exact codeSearch_cons_some hmC
    unfold extract_sections
    rw [hT, hA, hC]
    simp only [stripGroup]
    rw [hst, hsa, hsc]
  · intro resp h
    have h1 : headerSearch "Thought:" resp = none := by
      have h2 := headerSearch_skip "Thought:" resp [] h
      rw [List.append_nil] at h2
      rw [h2]
      rfl
    have h3 : headerSearch "Action:" resp = none := by
      have h2 := headerSearch_skip "Action:" resp [] h
      rw [List.append_nil] at h2
      rw [h2]
      rfl
    unfold extract_sections
    rw [h1, h3]
    exact ⟨rfl, rfl⟩
  · intro resp h
    have h1 : codeSearch resp = none := by
      have h2 := codeSearch_skip resp [] h
      rw [List.append_nil] at h2
      rw [h2]
      rfl
    unfold extract_sections
    rw [h1]
    rfl

/-- Witness for C7: a concrete canonical response and a concrete
marker-free response. -/
theorem c7_extraction_amended_witness :
    extract_sections (mkResponse "I will click.".data "Click it.".data "pyautogui.moveTo(0.1, 0.2)".data) =
      (pyStrip "I will click.".data, pyStrip "Click it.".data, pyStrip "pyautogui.moveTo(0.1, 0.2)".data) ∧
    (extract_sections "plain text, no markers".data).1 = [] ∧
    (extract_sections "plain text, no markers".data).2.2 = [] :=
  ⟨c7_extraction_amended.1 "I will click.".data "Click it.".data "pyautogui.moveTo(0.1, 0.2)".data
      (by decide) (by decide) (by decide),
   (c7_extraction_amended.2.1 "plain text, no markers".data (by decide)).1,
   c7_extraction_amended.2.2 "plain text, no markers".data (by decide)⟩

/-- C2 counterexample.  A plain `click` line immediately followed by a
`dragTo` line yields the click record and no drag at all: the click line
is consumed by the click-family branch and never becomes a pending drag
start. -/
theorem c2_counterexample :
    build_actions "pyautogui.click(0.1, 0.2)\npyautogui.dragTo(0.3, 0.4)".data =
      some (some (.click "click" (some 192) (some 216)), none) ∧
    ¬ build_actions "pyautogui.click(0.1, 0.2)\npyautogui.dragTo(0.3, 0.4)".data =
      some (some (.drag (some 192) (some 216) (some 576) (some 432)), none) := by decide

/-- C3 counterexample.  The pending drag start survives an intervening
recognized (`press`) line, and it is not consumed by a drag: a second
`dragTo` reuses the same start (the claim's "directly subsequent" and
"not reused" conditions both fail on the code). -/
theorem c3_counterexample :
    build_actions
        "pyautogui.moveTo(0.1, 0.2)\npyautogui.press(\"a\")\npyautogui.dragTo(0.3, 0.4)".data =
      some (some (.drag (some 192) (some 216) (some 576) (some 432)), some (.press "a")) ∧
    build_actions
        "pyautogui.moveTo(0.1, 0.2)\npyautogui.dragTo(0.3, 0.4)\npyautogui.dragTo(0.5, 0.6)".data =
      some (some (.drag (some 192) (some 216) (some 960) (some 648)), none) := by decide

/-- C4 counterexample.  On `pyautogui.write("don't")` the extracted text
is `don`, not the verbatim literal content `don't`: the lazy group stops
at the first quote character of either kind. -/
theorem c4_counterexample :
    build_actions c4line = some (none, some (.type "don")) ∧
    ¬ build_actions c4line =
      some (none, some (.type (String.mk ('d' :: 'o' :: 'n' :: Char.ofNat 39 :: 't' :: [])))) := by
  decide

/-- C7 counterexample.  A well-formed response whose thought text
contains a bare `#` (no header marker, no fence) is truncated at that
`#`: the extractor returns `see`, not the full enclosed text
`see #3 ok`. -/
theorem c7_counterexample :
    extract_sections "## Thought:\nsee #3 ok\n## Action:\nClick\n```python\nfoo\n```".data =
      ("see".data, "Click".data, "foo".data) ∧
    ¬ "see".data = "see #3 ok".data := by decide

/-! ### Claim C10: positional scroll coordinates are misparsed -/

/-- C10.  On a scroll call whose coordinates are positional,
`pyautogui.scroll(clicks, a, b)`, the named-coordinate pattern finds no
match (the argument string contains no letter `x`) and `_parse_coords`
falls back to the leftmost bare numeric pair of the full argument
string, which is `(clicks, a)`: the emitted scroll record has `x` equal
to the clicks value scaled by 1920 and `y` equal to the first positional
coordinate scaled by 1080 (truncation toward zero of `1080 * a`) — not
the coordinates the caller intended. -/
theorem c10_positional_scroll {s1 s2 r0 : List Char} {n : ℤ}
    (h1 : numTok s1 = some (s1, [])) (h2 : numTok s2 = some (s2, []))
    (hpy : pyInt s1 = some n)
    (hr0 : ∀ c ∈ r0, ¬ c = 'x' ∧ ¬ c = ')' ∧ isBreak c = false) :
    build_actions (mkCall "scroll" (s1 ++ ',' :: ' ' :: (s2 ++ ',' :: r0)))
        = some (some (.scroll (some (1920 * n)) (some (scaleBy 1080 (tokDec s2))) n), none)
      ∧ scaleBy 1080 (tokDec s2) = specTrunc ((1080 : ℚ) * qVal (tokDec s2)) := by
  have hclean1 := numTok_self_clean h1
  have hclean2 := numTok_self_clean h2
  have hparen : ∀ c ∈ s1 ++ ',' :: ' ' :: (s2 ++ ',' :: r0), ¬ c = ')' := by
    intro c hc
    simp only [List.mem_append, List.mem_cons] at hc
    rcases hc with h | rfl | rfl | h | rfl | h
    · exact (hclean1 c h).2.1
    · decide
    · decide
    · exact (hclean2 c h).2.1
    · decide
    · exact (hr0 c h).2.1
  have hnox : ∀ c ∈ s1 ++ ',' :: ' ' :: (s2 ++ ',' :: r0), ¬ c = 'x' := by
    intro c hc
    simp only [List.mem_append, List.mem_cons] at hc
    rcases hc with h | rfl | rfl | h | rfl | h
    · exact (hclean1 c h).1
    · decide
    · decide
    · exact (hclean2 c h).1
    · decide
    · exact (hr0 c h).1
  have hargsbrk : ∀ c ∈ s1 ++ ',' :: ' ' :: (s2 ++ ',' :: r0), isBreak c = false := by
    intro c hc
    simp only [List.mem_append, List.mem_cons] at hc
    rcases hc with h | rfl | rfl | h | rfl | h
    · exact (hclean1 c h).2.2.2.2
    · decide
    · decide
    · exact (hclean2 c h).2.2.2.2
    · decide
    · exact (hr0 c h).2.2
  have hMk : mkCall "scroll" (s1 ++ ',' :: ' ' :: (s2 ++ ',' :: r0))
      = 'p' :: (("yautogui.scroll(".data ++ (s1 ++ ',' :: ' ' :: (s2 ++ ',' :: r0))) ++ [')']) :=
    rfl
  have hlinebrk : ∀ c ∈ mkCall "scroll" (s1 ++ ',' :: ' ' :: (s2 ++ ',' :: r0)),
      isBreak c = false := by
    intro c hc
    rw [hMk] at hc
    rcases List.mem_cons.mp hc with rfl | hc2
    · decide
    rcases List.mem_append.mp hc2 with hc3 | hc4
    · rcases List.mem_append.mp hc3 with h | h
      · have hall : ∀ e ∈ "yautogui.scroll(".data, isBreak e = false := by decide
        exact hall c h
      · exact hargsbrk c h
    · have hcp : c = ')' := by simpa using hc4
      subst hcp
      decide
  have hline := linesOf_single hMk hlinebrk (by decide) (by decide)
  have htw : (s1 ++ ',' :: ' ' :: (s2 ++ ',' :: r0)).takeWhile (fun c => ¬ c = ',') = s1 := by
    rw [twApp s1 (',' :: ' ' :: (s2 ++ ',' :: r0))
      (fun c hc => by simp [(hclean1 c hc).2.2.1])]
    simp [List.takeWhile]
  have hn : pyInt (pyStrip ((s1 ++ ',' :: ' ' :: (s2 ++ ',' :: r0)).takeWhile
      (fun c => ¬ c = ','))) = some n := by
    rw [htw, pyStrip_clean (fun c hc => (hclean1 c hc).2.2.2.1)]
    exact hpy
  have hdw2 : List.dropWhile isWS (s2 ++ ',' :: r0) = s2 ++ ',' :: r0 := by
    obtain ⟨e, s2t, he⟩ := List.exists_cons_of_ne_nil (numTok_self_ne_nil h2)
    have hwse : isWS e = false :=
      (hclean2 e (by rw [he]; exact List.mem_cons_self e s2t)).2.2.2.1
    rw [he, List.cons_append, List.dropWhile_cons_of_neg (by simp [hwse])]
  have e1 : numTok (s1 ++ ',' :: ' ' :: (s2 ++ ',' :: r0))
      = some (s1, ',' :: ' ' :: (s2 ++ ',' :: r0)) := numTok_append_comma h1 _
  have e2 : List.dropWhile isWS (',' :: ' ' :: (s2 ++ ',' :: r0))
      = ',' :: ' ' :: (s2 ++ ',' :: r0) := List.dropWhile_cons_of_neg (by decide)
  have e3 : List.dropWhile isWS (' ' :: (s2 ++ ',' :: r0)) = s2 ++ ',' :: r0 := by
    rw [List.dropWhile_cons_of_pos (by decide)]
    exact hdw2
  have e4 : numTok (s2 ++ ',' :: r0) = some (s2, ',' :: r0) := numTok_append_comma h2 r0
  have hpair : pairAt (s1 ++ ',' :: ' ' :: (s2 ++ ',' :: r0))
      = some (tokDec s1, tokDec s2) := by
    unfold pairAt
    simp only [e1, e2, e3, e4]
  obtain ⟨a, s1t, ha⟩ := List.exists_cons_of_ne_nil (numTok_self_ne_nil h1)
  have hpairS : pairSearch (s1 ++ ',' :: ' ' :: (s2 ++ ',' :: r0))
      = some (tokDec s1, tokDec s2) := by
    rw [show s1 ++ ',' :: ' ' :: (s2 ++ ',' :: r0)
        = a :: (s1t ++ ',' :: ' ' :: (s2 ++ ',' :: r0)) from by rw [ha]; rfl] at hpair ⊢
    exact pairSearch_head hpair
  have hnamedS := namedSearch_no_x hnox
  have hraw : rawCoords (s1 ++ ',' :: ' ' :: (s2 ++ ',' :: r0))
      = some (tokDec s1, tokDec s2) := by
    unfold rawCoords
    rw [hnamedS, hpairS]
    rfl
  have ht1 : tokDec s1 = (n, 0) := pyInt_tokDec hpy
  have hpc : parse_coords (s1 ++ ',' :: ' ' :: (s2 ++ ',' :: r0))
      = (some (1920 * n), some (scaleBy 1080 (tokDec s2))) := by
    unfold parse_coords
    simp only [hraw]
    rw [ht1, scaleBy_pow_zero]
  have hls := lineStep_scroll ⟨none, none, none⟩
    (s1 ++ ',' :: ' ' :: (s2 ++ ',' :: r0)) hparen hn hpc
  refine ⟨?_, scaleBy_eq_specTrunc 1080 (tokDec s2)⟩
  unfold build_actions
  rw [hline]
  simp only [List.foldlM_cons, List.foldlM_nil, hls]
  rfl

/-- C10 witness: `pyautogui.scroll(-5, 0.5, 0.5)` yields the scroll
record with `x = 1920 * (-5) = -9600` and `y = int(1080 * 0.5) = 540`. -/
theorem c10_positional_scroll_witness :
    (build_actions (mkCall "scroll" ("-5".data ++ ',' :: ' ' :: ("0.5".data ++ ',' :: " 0.5".data)))
        = some (some (.scroll (some (1920 * (-5))) (some (scaleBy 1080 (tokDec "0.5".data))) (-5)),
            none)
      ∧ scaleBy 1080 (tokDec "0.5".data) = specTrunc ((1080 : ℚ) * qVal (tokDec "0.5".data)))
      ∧ scaleBy 1080 (tokDec "0.5".data) = 540 :=
  ⟨c10_positional_scroll (by decide) (by decide) (by decide) (by decide), by decide⟩

end ConvertTask
